import Mathlib

/-!
# Verification of the import-sorting pipeline (prettier-plugin-sort-imports)

A shallow embedding of the repository's core pipeline: the sorter
(`src/sorter.ts`), the merger (`mergeImports`), the unused-import analyzer
(`src/analyzer.ts`), the formatter (`src/formatter.ts`), the statement-record
producer (`src/parser.ts`, over a model of the Babel AST it consumes), and the
orchestrator (`preprocessImports` in `src/index.ts`).

Conventions used throughout:
* JavaScript strings become Lean `String`s, manipulated through their `.data`
  character lists (indices are code-unit positions, modelled as character
  positions).
* JavaScript `Map` objects become insertion-ordered association lists;
  `Map.set` replaces the value in place when the key exists, otherwise appends.
* `Array.prototype.sort(cmp)` (stable since ES2019) becomes a stable insertion
  sort driven by the sign of the comparator.
* `undefined`-able fields become `Option`s; the `x ?? y` operator becomes
  `Option.getD`.
* Functions whose JS originals throw model the outcome of the throwing call
  explicitly (`TraversalOutcome` below).
-/

namespace SortImports

/-! ## Basic JavaScript-semantics helpers -/

/-- Stable insertion of `a` into `l`: `a` is placed before the first element
`b` with `le a b`.  With `le a b := cmp a b ≤ 0` this realises the stable
order produced by `Array.prototype.sort` for a consistent comparator. -/
def jsInsert (le : α → α → Bool) (a : α) : List α → List α
  | [] => [a]
  | b :: l => if le a b then a :: b :: l else b :: jsInsert le a l

/-- Model of `[...arr].sort(cmp)` for a JS comparator returning a number:
stable sort, `cmp a b < 0` means `a` before `b`. -/
def jsSort (cmp : α → α → Int) : List α → List α
  | [] => []
  | a :: l => jsInsert (fun x y => cmp x y ≤ 0) a (jsSort cmp l)

/-- Model of `Array.prototype.join(sep)` / template-literal concatenation. -/
def joinWith (sep : String) : List String → String
  | [] => ""
  | [x] => x
  | x :: xs => x ++ sep ++ joinWith sep xs

/-- Decimal digit characters of `n`, most significant first, in front of
`acc`; `fuel` bounds the recursion (any `fuel > n` is enough). -/
def natReprAux : Nat → Nat → List Char → List Char
  | 0, _, acc => acc
  | fuel + 1, n, acc =>
    let d : Char := Char.ofNat (48 + n % 10)
    if n < 10 then d :: acc else natReprAux fuel (n / 10) (d :: acc)

/-- Decimal rendering of a JS number holding a natural, as produced by a
template literal such as `` `${statement.start}` ``. -/
def natRepr (n : Nat) : String := ⟨natReprAux (n + 1) n []⟩

/-- Rendering of a JS boolean inside a template literal. -/
def boolStr (b : Bool) : String := if b then "true" else "false"

/-- Rendering of a JS `number | undefined` inside a template literal. -/
def startStr : Option Nat → String
  | some n => natRepr n
  | none => "undefined"

/-- Model of `String.prototype.startsWith` (character-level prefix test). -/
def strStartsWith (s p : String) : Bool := p.data.isPrefixOf s.data

/-- Model of `str.slice(i)` (suffix from character position `i`, clamped). -/
def jsSliceFrom (s : String) (i : Nat) : String := ⟨s.data.drop i⟩

/-- Model of `str.slice(i, j)` (characters from position `i` up to `j`,
clamped). -/
def jsSliceRange (s : String) (i j : Nat) : String := ⟨(s.data.take j).drop i⟩

/-- Model of `String.prototype.localeCompare` restricted to the code-point
comparison relevant here; the theorems below never depend on the precise
collation, only on it being a comparator. -/
def localeCompare (a b : String) : Int :=
  if a.data < b.data then -1 else if b.data < a.data then 1 else 0

/-- `Map.prototype.get` on an insertion-ordered association list: the value
stored at the first (under unique keys: the only) occurrence of the key. -/
def jsMapGet (m : List (String × α)) (k : String) : Option α :=
  match m with
  | [] => none
  | (k0, v0) :: rest => if k0 = k then some v0 else jsMapGet rest k

/-- `Map.prototype.set`: replace in place if the key is present (keeping its
position), otherwise append. -/
def jsMapSet (m : List (String × α)) (k : String) (v : α) : List (String × α) :=
  match m with
  | [] => [(k, v)]
  | (k0, v0) :: rest => if k0 = k then (k, v) :: rest else (k0, v0) :: jsMapSet rest k v

/-- First-occurrence deduplication (the order in which distinct keys first
appear in a list), used to describe insertion-ordered map keys. -/
def firstDedupAux [DecidableEq α] (seen : List α) : List α → List α
  | [] => []
  | x :: xs =>
    if x ∈ seen then firstDedupAux seen xs
    else x :: firstDedupAux (seen ++ [x]) xs

/-- Keys of a JS `Map`, in insertion order, as a function of the key stream. -/
def firstDedup [DecidableEq α] (l : List α) : List α := firstDedupAux [] l

/-! ## Data model (`src/types.ts`) -/

/-- One specifier inside an import/export statement (`ImportContent`). -/
structure ImportContent where
  name : String
  «alias» : Option String := none
  /-- `"type"` or `"variable"`. -/
  type : String := "variable"
  leadingComments : Option (List String) := none
  trailingComments : Option (List String) := none
  deriving DecidableEq, Repr

/-- One import/export statement (`ImportStatement`). -/
structure ImportStatement where
  path : String
  isExport : Bool := false
  isSideEffect : Bool := false
  importContents : List ImportContent := []
  leadingComments : Option (List String) := none
  trailingComments : Option (List String) := none
  removedTrailingComments : Option (List String) := none
  emptyLinesAfterComments : Option Nat := none
  start : Option Nat := none
  «end» : Option Nat := none
  deriving DecidableEq, Repr

/-- A named bucket of statements (`Group`). -/
structure Group where
  name : String
  isSideEffect : Bool
  importStatements : List ImportStatement
  deriving DecidableEq, Repr

/-- The group-separator configuration value: a literal string or a
`(group, index) => string | undefined` function. -/
def SeparatorConfig := Sum String (Group → Nat → Option String)

/-- User-facing plugin configuration (`PluginConfig`), every field optional. -/
structure PluginConfig where
  getGroup : Option (ImportStatement → String) := none
  sortGroup : Option (Group → Group → Int) := none
  sortImportStatement : Option (ImportStatement → ImportStatement → Int) := none
  sortImportContent : Option (ImportContent → ImportContent → Int) := none
  separator : Option SeparatorConfig := none
  sortSideEffect : Option Bool := none
  removeUnusedImports : Option Bool := none

/-! ## Sorter (`src/sorter.ts`) -/

/-- Import-path classification used by the default statement comparator. -/
inductive ImportType
  | module
  | alias
  | relative
  deriving DecidableEq, Repr

/-- `defaultGetGroup`: every import goes to the `"default"` group. -/
def defaultGetGroup (_ : ImportStatement) : String := "default"

/-- `defaultSortGroup`: lexical by group name. -/
def defaultSortGroup (a b : Group) : Int := localeCompare a.name b.name

/-- `getImportType`: path-shape classification (`./`/`../` relative,
`@/`/`~/`/`#/` or leading `/` alias, otherwise module). -/
def getImportType (path : String) : ImportType :=
  if strStartsWith path "./" || strStartsWith path "../" then .relative
  else if strStartsWith path "@/" || strStartsWith path "~/" || strStartsWith path "#/" then .alias
  else if strStartsWith path "/" then .alias
  else .module

/-- `getImportTypePriority`: smaller sorts first. -/
def getImportTypePriority : ImportType → Int
  | .module => 0
  | .alias => 1
  | .relative => 2

/-- `defaultSortImportStatement`: by path-shape priority, then lexical path. -/
def defaultSortImportStatement (a b : ImportStatement) : Int :=
  let aPriority := getImportTypePriority (getImportType a.path)
  let bPriority := getImportTypePriority (getImportType b.path)
  if aPriority ≠ bPriority then aPriority - bPriority
  else localeCompare a.path b.path

/-- `defaultSortImportContent`: `type` specifiers first, then lexical by the
effective (`alias ?? name`) name. -/
def defaultSortImportContent (a b : ImportContent) : Int :=
  if a.type == "type" && b.type != "type" then -1
  else if a.type != "type" && b.type == "type" then 1
  else localeCompare (a.alias.getD a.name) (b.alias.getD b.name)

/-- Fully-defaulted configuration (`MergedConfig`). -/
structure MergedConfig where
  getGroup : ImportStatement → String
  sortGroup : Group → Group → Int
  sortImportStatement : ImportStatement → ImportStatement → Int
  sortImportContent : ImportContent → ImportContent → Int
  separator : Option SeparatorConfig
  sortSideEffect : Bool
  removeUnusedImports : Bool

/-- `mergeConfig`: fill every missing strategy with its default. -/
def mergeConfig (userConfig : PluginConfig) : MergedConfig where
  getGroup := userConfig.getGroup.getD defaultGetGroup
  sortGroup := userConfig.sortGroup.getD defaultSortGroup
  sortImportStatement := userConfig.sortImportStatement.getD defaultSortImportStatement
  sortImportContent := userConfig.sortImportContent.getD defaultSortImportContent
  separator := userConfig.separator
  sortSideEffect := userConfig.sortSideEffect.getD false
  removeUnusedImports := userConfig.removeUnusedImports.getD false

/-- A `MergedConfig` used where a `PluginConfig` is expected (TypeScript's
structural typing lets `sortImports` pass its merged config straight to
`groupImports`/`sortImportContents`; in particular every optional field is
then present). -/
def MergedConfig.toPluginConfig (c : MergedConfig) : PluginConfig where
  getGroup := some c.getGroup
  sortGroup := some c.sortGroup
  sortImportStatement := some c.sortImportStatement
  sortImportContent := some c.sortImportContent
  separator := c.separator
  sortSideEffect := some c.sortSideEffect
  removeUnusedImports := some c.removeUnusedImports

/-- `groupImports`: partition statements into insertion-ordered groups keyed
by `config.getGroup`; a group is side-effect iff all its members are. -/
def groupImports (imports : List ImportStatement) (userConfig : PluginConfig) : List Group :=
  let config := mergeConfig userConfig
  let groupMap := imports.foldl
    (fun m statement =>
      let groupName := config.getGroup statement
      let statements := (jsMapGet m groupName).getD []
      jsMapSet m groupName (statements ++ [statement]))
    ([] : List (String × List ImportStatement))
  groupMap.map (fun p =>
    { name := p.1
      isSideEffect := p.2.all (·.isSideEffect)
      importStatements := p.2 })

/-- `sortGroups`: `[...groups].sort(config.sortGroup)`. -/
def sortGroups (groups : List Group) (userConfig : PluginConfig) : List Group :=
  let config := mergeConfig userConfig
  jsSort config.sortGroup groups

/-- `sortImportStatements`: `[...statements].sort(config.sortImportStatement)`. -/
def sortImportStatements (statements : List ImportStatement) (userConfig : PluginConfig) :
    List ImportStatement :=
  let config := mergeConfig userConfig
  jsSort config.sortImportStatement statements

/-- `sortImportContents`: with a user-supplied content comparator, a plain
sort; otherwise default and namespace specifiers are pinned first and only
the named specifiers are sorted. -/
def sortImportContents (contents : List ImportContent) (userConfig : PluginConfig) :
    List ImportContent :=
  let config := mergeConfig userConfig
  match userConfig.sortImportContent with
  | some _ => jsSort config.sortImportContent contents
  | none =>
    let defaultImport := contents.filter (fun c => c.name == "default")
    let namespaceImport := contents.filter (fun c => c.name == "*")
    let namedImports := contents.filter (fun c => c.name != "default" && c.name != "*")
    defaultImport ++ namespaceImport ++ jsSort config.sortImportContent namedImports

/-- The group-sort-flatten loop that `sortImports` and
`sortImportsWithSideEffectSeparators` both inline: group, sort the groups,
sort each group's statements, sort each statement's contents. -/
def flattenSortedGroups (imports : List ImportStatement) (cfg : PluginConfig) :
    List ImportStatement :=
  (sortGroups (groupImports imports cfg) cfg).flatMap (fun group =>
    (sortImportStatements group.importStatements cfg).map (fun statement =>
      { statement with importContents := sortImportContents statement.importContents cfg }))

/-- The chunk-splitting loop of `sortImportsWithSideEffectSeparators`: maximal
runs of non-side-effect statements, each side-effect statement in its own
singleton chunk, in source order. -/
def buildChunksAux : List ImportStatement → List ImportStatement → List (List ImportStatement)
  | [], currentChunk => if currentChunk.length > 0 then [currentChunk] else []
  | statement :: rest, currentChunk =>
    if statement.isSideEffect then
      (if currentChunk.length > 0 then [currentChunk] else []) ++
        [[statement]] ++ buildChunksAux rest []
    else buildChunksAux rest (currentChunk ++ [statement])

/-- The chunks of `sortImportsWithSideEffectSeparators`. -/
def buildChunks (imports : List ImportStatement) : List (List ImportStatement) :=
  buildChunksAux imports []

/-- Per-chunk processing of `sortImportsWithSideEffectSeparators`: a singleton
side-effect chunk passes through; any other chunk is grouped and sorted. -/
def processChunk (config : MergedConfig) (chunk : List ImportStatement) :
    List ImportStatement :=
  let sorted := flattenSortedGroups chunk config.toPluginConfig
  match chunk with
  | [statement] => if statement.isSideEffect then [statement] else sorted
  | _ => sorted

/-- `sortImportsWithSideEffectSeparators`. -/
def sortImportsWithSideEffectSeparators (imports : List ImportStatement)
    (config : MergedConfig) : List ImportStatement :=
  (buildChunks imports).flatMap (processChunk config)

/-- `sortImports`. -/
def sortImports (imports : List ImportStatement) (userConfig : PluginConfig) :
    List ImportStatement :=
  let config := mergeConfig userConfig
  if !config.sortSideEffect then sortImportsWithSideEffectSeparators imports config
  else flattenSortedGroups imports config.toPluginConfig

/-! ## Merger (`mergeImports` in `src/sorter.ts`) -/

/-- Whether a statement contains a namespace (`* as N`) specifier. -/
def hasNamespaceImport (s : ImportStatement) : Bool :=
  s.importContents.any (fun c => c.name == "*")

/-- Map key for statements that may merge: `` `${path}|||${isExport}` ``. -/
def mergeKeyOf (path : String) (isExport : Bool) : String :=
  path ++ "|||" ++ boolStr isExport

/-- Map key for a mergeable statement. -/
def mergeKey (s : ImportStatement) : String := mergeKeyOf s.path s.isExport

/-- Map key for a side-effect statement:
`` `${path}|||${isExport}|||sideEffect|||${start}` ``. -/
def sideEffectKey (s : ImportStatement) : String :=
  s.path ++ "|||" ++ boolStr s.isExport ++ "|||sideEffect|||" ++ startStr s.start

/-- Map key for a namespace-containing statement:
`` `${path}|||${isExport}|||namespace|||${start}` ``. -/
def namespaceKey (s : ImportStatement) : String :=
  s.path ++ "|||" ++ boolStr s.isExport ++ "|||namespace|||" ++ startStr s.start

/-- The merge-map key `mergeImports` files a statement under. -/
def statementKey (s : ImportStatement) : String :=
  if s.isSideEffect then sideEffectKey s
  else if hasNamespaceImport s then namespaceKey s
  else mergeKey s

/-- Duplicate-content handling: when an incoming specifier matches an
existing one on `(name, alias)`, its comments are appended onto the retained
entry (the `if (content.leadingComments)` / `if (content.trailingComments)`
branches). -/
def mergeContentComments (e c : ImportContent) : ImportContent :=
  let e1 := match c.leadingComments with
    | some l => { e with leadingComments := some (e.leadingComments.getD [] ++ l) }
    | none => e
  match c.trailingComments with
  | some t => { e1 with trailingComments := some (e1.trailingComments.getD [] ++ t) }
  | none => e1

/-- One step of the content-merge loop: look for the first entry with the same
`(name, alias)`; merge comments into it if found, otherwise push the new
content at the end. -/
def insertMergedContent (acc : List ImportContent) (content : ImportContent) :
    List ImportContent :=
  match acc with
  | [] => [content]
  | e :: rest =>
    if e.name == content.name && e.alias == content.alias then
      mergeContentComments e content :: rest
    else e :: insertMergedContent rest content

/-- Merging one further statement into the statement already stored for its
merge key: contents are concatenated with `(name, alias)` deduplication,
leading comments concatenate, only the first statement's trailing comment is
kept, later trailing comments accumulate in `removedTrailingComments`. -/
def mergeTwoStatements (existing statement : ImportStatement) : ImportStatement :=
  let mergedContents := statement.importContents.foldl insertMergedContent existing.importContents
  let mergedLeadingComments := existing.leadingComments.getD [] ++ statement.leadingComments.getD []
  let mergedTrailingComments := existing.trailingComments.getD []
  let removedTrailingComments :=
    existing.removedTrailingComments.getD [] ++ statement.trailingComments.getD []
  { existing with
    importContents := mergedContents
    leadingComments := if mergedLeadingComments.length > 0 then some mergedLeadingComments else none
    trailingComments := if mergedTrailingComments.length > 0 then some mergedTrailingComments else none
    removedTrailingComments :=
      if removedTrailingComments.length > 0 then some removedTrailingComments else none }

/-- One iteration of the `mergeImports` loop over the merge map. -/
def mergeStep (m : List (String × ImportStatement)) (statement : ImportStatement) :
    List (String × ImportStatement) :=
  if statement.isSideEffect then
    jsMapSet m (sideEffectKey statement) statement
  else if hasNamespaceImport statement then
    jsMapSet m (namespaceKey statement) statement
  else
    let key := mergeKey statement
    match jsMapGet m key with
    | none => jsMapSet m key statement
    | some existing => jsMapSet m key (mergeTwoStatements existing statement)

/-- `mergeImports`: fold the statements through the merge map and return the
map's values in insertion order. -/
def mergeImports (imports : List ImportStatement) : List ImportStatement :=
  (imports.foldl mergeStep []).map (·.2)

/-! ## Analyzer (`src/analyzer.ts`) -/

/-- Outcome of the external `@babel/traverse` walk inside
`analyzeUsedIdentifiers`: either the walk completed with the collected
identifier names, or it threw after having collected a prefix of them.  The
surrounding `try { ... } catch (error) { console.error(...) }` swallows the
exception, so the partially filled set is what the function returns. -/
inductive TraversalOutcome
  | ok (ids : List String)
  | thrown (partialIds : List String)
  deriving DecidableEq, Repr

/-- `analyzeUsedIdentifiers`, as a function of the traversal outcome: the
collected set is returned whether or not the traversal threw. -/
def analyzeUsedIdentifiers : TraversalOutcome → List String
  | .ok ids => ids
  | .thrown partialIds => partialIds

/-- `filterUnusedImports`: side-effect and export statements pass through;
otherwise keep a content iff its effective local name (`alias ?? name`, and
for default/namespace specifiers the alias) is in the used set; the statement
becomes side-effect when nothing is left. -/
def filterUnusedImports (importStatement : ImportStatement) (usedIdentifiers : List String) :
    ImportStatement :=
  if importStatement.isSideEffect || importStatement.isExport then importStatement
  else
    let usedContents := importStatement.importContents.filter (fun content =>
      let usedName := content.alias.getD content.name
      if content.name == "default" || content.name == "*" then
        match content.alias with
        | some a => usedIdentifiers.contains a
        | none => false
      else usedIdentifiers.contains usedName)
    { importStatement with
      importContents := usedContents
      isSideEffect := usedContents.length == 0 }

/-- The filtering loop of `removeUnusedImportsFromStatements`: a statement
whose filtering removed every content (and that was not already side-effect)
is dropped entirely. -/
def removeUnusedLoop (usedIdentifiers : List String) : List ImportStatement → List ImportStatement
  | [] => []
  | statement :: rest =>
    let filteredStatement := filterUnusedImports statement usedIdentifiers
    if !statement.isSideEffect && filteredStatement.isSideEffect &&
        filteredStatement.importContents.length == 0 then
      removeUnusedLoop usedIdentifiers rest
    else filteredStatement :: removeUnusedLoop usedIdentifiers rest

/-- `removeUnusedImportsFromStatements`, as a function of the traversal
outcome on the code after the imports. -/
def removeUnusedImportsFromStatements (importStatements : List ImportStatement)
    (outcome : TraversalOutcome) : List ImportStatement :=
  let usedIdentifiers := analyzeUsedIdentifiers outcome
  removeUnusedLoop usedIdentifiers importStatements

/-! ## Formatter (`src/formatter.ts`) -/

/-- JS truthiness check `xs && xs.length > 0` for an optional comment list. -/
def commentsNonempty : Option (List String) → Bool
  | some l => l.length > 0
  | none => false

/-- Whether any named (non-default, non-namespace) specifier carries its own
comments, which switches the named list to one-specifier-per-line layout. -/
def hasNamedImportComments (contents : List ImportContent) : Bool :=
  contents.any (fun content =>
    content.name != "default" && content.name != "*" &&
      (commentsNonempty content.leadingComments || commentsNonempty content.trailingComments))

/-- The named specifiers of a statement's content list. -/
def namedImportsOf (contents : List ImportContent) : List ImportContent :=
  contents.filter (fun c => c.name != "default" && c.name != "*")

/-- `allNamedImportsAreTypes` in `formatImportStatement`. -/
def allNamedImportsAreTypes (contents : List ImportContent) : Bool :=
  (namedImportsOf contents).all (fun c => c.type == "type")

/-- `hasDefaultOrNamespace` in `formatImportStatement`. -/
def hasDefaultOrNamespace (contents : List ImportContent) : Bool :=
  contents.any (fun c => c.name == "default" || c.name == "*")

/-- The per-item rendering of a named specifier, `type ` prefix included when
the content is type-marked. -/
def namedItemString (content : ImportContent) : String :=
  let typePrefix := if content.type == "type" then "type " else ""
  match content.alias with
  | some a => typePrefix ++ content.name ++ " as " ++ a
  | none => typePrefix ++ content.name

/-- One step of the content loop of `formatImportStatement`, accumulating
`(parts, namedParts, namedPartsWithComments)`. -/
def buildPartsStep (useComments : Bool) :
    List String × List String × List String → ImportContent →
      List String × List String × List String
  | (parts, namedParts, namedPartsWithComments), content =>
  if content.name == "default" then
    (parts ++ [content.alias.getD "default"], namedParts, namedPartsWithComments)
  else if content.name == "*" then
    (parts ++ ["* as " ++ content.alias.getD "namespace"], namedParts, namedPartsWithComments)
  else
    let importItem := namedItemString content
    if useComments then
      let itemLines :=
        (if commentsNonempty content.leadingComments then content.leadingComments.getD [] else [])
      let itemLine :=
        if commentsNonempty content.trailingComments then
          importItem ++ " " ++ joinWith " " (content.trailingComments.getD [])
        else importItem
      (parts, namedParts,
        namedPartsWithComments ++ [joinWith "\n    " (itemLines ++ [itemLine])])
    else (parts, namedParts ++ [importItem], namedPartsWithComments)

/-- The content loop of `formatImportStatement`. -/
def buildParts (useComments : Bool) (contents : List ImportContent) :
    List String × List String × List String :=
  contents.foldl (buildPartsStep useComments) ([], [], [])

/-- Model of `part.replace(/^type /, "")`. -/
def replaceTypePrefix (s : String) : String :=
  if "type ".data.isPrefixOf s.data then ⟨s.data.drop 5⟩ else s

/-- `formatImportStatement`: render one statement back to source text. -/
def formatImportStatement (statement : ImportStatement) : String :=
  let lines : List String :=
    if commentsNonempty statement.leadingComments then statement.leadingComments.getD [] else []
  if statement.isSideEffect then
    let importLine :=
      if statement.isExport then "export * from \"" ++ statement.path ++ "\""
      else "import \"" ++ statement.path ++ "\""
    let importLine :=
      if commentsNonempty statement.trailingComments then
        importLine ++ " " ++ joinWith " " (statement.trailingComments.getD [])
      else importLine
    joinWith "\n" (lines ++ [importLine])
  else
    let useComments := hasNamedImportComments statement.importContents
    let built := buildParts useComments statement.importContents
    let parts := built.1
    let namedParts := built.2.1
    let namedPartsWithComments := built.2.2
    let allTypes := allNamedImportsAreTypes statement.importContents
    let hasDefNs := hasDefaultOrNamespace statement.importContents
    let lines :=
      if useComments && namedPartsWithComments.length > 0 then
        let keyword := if statement.isExport then "export" else "import"
        let typeKeyword := if allTypes && !hasDefNs then "type " else ""
        let defaultPart := if parts.length > 0 then joinWith ", " parts ++ ", " else ""
        let importStart := keyword ++ " " ++ typeKeyword ++ defaultPart ++ "\x7b"
        let importEnd := "\x7d from \"" ++ statement.path ++ "\""
        lines ++ [importStart, "    " ++ joinWith ",\n    " namedPartsWithComments ++ ",", importEnd]
      else
        let parts :=
          if namedParts.length > 0 then
            if allTypes && !hasDefNs then
              let cleanedParts := namedParts.map replaceTypePrefix
              parts ++ ["\x7b " ++ joinWith ", " cleanedParts ++ " \x7d"]
            else parts ++ ["\x7b " ++ joinWith ", " namedParts ++ " \x7d"]
          else parts
        let importClause := joinWith ", " parts
        let typeKeyword := if allTypes && !hasDefNs then "type " else ""
        let importLine :=
          if statement.isExport then "export " ++ typeKeyword ++ importClause ++ " from \"" ++ statement.path ++ "\""
          else "import " ++ typeKeyword ++ importClause ++ " from \"" ++ statement.path ++ "\""
        let importLine :=
          if commentsNonempty statement.trailingComments then
            importLine ++ " " ++ joinWith " " (statement.trailingComments.getD [])
          else importLine
        lines ++ [importLine]
    let lines :=
      if commentsNonempty statement.removedTrailingComments then
        lines ++ [""] ++ statement.removedTrailingComments.getD []
      else lines
    joinWith "\n" lines

/-- `formatGroups`: before each group, when a separator is configured and
resolves to a string, emit a blank line plus (when nonempty) the separator
text; then the group's statements, one per line block. -/
def formatGroups (groups : List Group) (config : PluginConfig) : String :=
  let lines := groups.enum.foldl
    (fun lines p =>
      let i := p.1
      let group := p.2
      let lines :=
        match config.separator with
        | none => lines
        | some sep =>
          let separatorStr : Option String :=
            match sep with
            | .inl s => some s
            | .inr f => f group i
          match separatorStr with
          | none => lines
          | some s => (lines ++ [""]) ++ (if s != "" then [s] else [])
      lines ++ group.importStatements.map formatImportStatement)
    ([] : List String)
  joinWith "\n" lines

/-- `formatImportStatements`: plain statement-per-line rendering. -/
def formatImportStatements (statements : List ImportStatement) : String :=
  joinWith "\n" (statements.map formatImportStatement)

/-! ## Parser (`src/parser.ts`, over a model of the Babel AST)

The repository's parser consumes the AST produced by the external
`@babel/parser`.  The node shapes below model exactly the fields
`parseImportNode` reads: source value, import/export kind, specifiers,
attached comments (with positions and line numbers) and node offsets.
Comment object identity (the `usedComments: Set<Comment>`) is modelled by a
numeric id carried on each comment. -/

/-- A Babel `Comment` as used by the parser: `type` is `"CommentLine"` or
`"CommentBlock"`; `value` is the comment text without delimiters. -/
structure BabelComment where
  type : String
  value : String
  start : Option Nat := none
  «end» : Option Nat := none
  /-- `loc`, flattened to `(start.line, end.line)`. -/
  loc : Option (Nat × Nat) := none
  /-- Object identity for membership in the `usedComments` set. -/
  cid : Nat
  deriving DecidableEq, Repr

/-- A specifier of a Babel `ImportDeclaration`. -/
inductive BabelImportSpecifier
  /-- `ImportDefaultSpecifier`. -/
  | importDefaultSpecifier (localName : String)
      (leadingComments trailingComments : Option (List BabelComment))
  /-- `ImportNamespaceSpecifier`. -/
  | importNamespaceSpecifier (localName : String)
      (leadingComments trailingComments : Option (List BabelComment))
  /-- `ImportSpecifier`; `importKindIsType` models `importKind === "type"`. -/
  | importSpecifier (importedName localName : String) (importKindIsType : Bool)
      (leadingComments trailingComments : Option (List BabelComment))
  deriving DecidableEq, Repr

/-- A specifier of a Babel `ExportNamedDeclaration`. -/
inductive BabelExportSpecifier
  /-- `ExportSpecifier`; `exportKindIsType` models `exportKind === "type"`. -/
  | exportSpecifier (localName exportedName : String) (exportKindIsType : Bool)
      (leadingComments trailingComments : Option (List BabelComment))
  /-- `ExportNamespaceSpecifier` (`export * as N from "x"`), which the
  repository's `parseExportSpecifiers` ignores. -/
  | exportNamespaceSpecifier (exportedName : String)
  deriving DecidableEq, Repr

/-- The three Babel node kinds `parseImports` keeps from the leading block. -/
inductive BabelNode
  /-- `ImportDeclaration`; `importKindIsType` models `importKind === "type"`. -/
  | importDeclaration (source : String) (importKindIsType : Bool)
      (specifiers : List BabelImportSpecifier)
      (leadingComments trailingComments : Option (List BabelComment))
      (start «end» : Option Nat) (loc : Option (Nat × Nat))
  /-- `ExportNamedDeclaration` with a source. -/
  | exportNamedDeclaration (source : String) (exportKindIsType : Bool)
      (specifiers : List BabelExportSpecifier)
      (leadingComments trailingComments : Option (List BabelComment))
      (start «end» : Option Nat) (loc : Option (Nat × Nat))
  /-- `ExportAllDeclaration`. -/
  | exportAllDeclaration (source : String)
      (leadingComments trailingComments : Option (List BabelComment))
      (start «end» : Option Nat) (loc : Option (Nat × Nat))
  deriving DecidableEq, Repr

/-- Render one Babel comment back to text (`//...` or `/*...*/`), as the
`comment.type === "CommentLine"` branches do; other comment types render
nothing. -/
def renderComment (c : BabelComment) : List String :=
  if c.type == "CommentLine" then ["//" ++ c.value]
  else if c.type == "CommentBlock" then ["/*" ++ c.value ++ "*/"]
  else []

/-- State threaded through the leading-comments loop of `parseImportNode`:
collected comment texts, statement start, last comment end line, used-set. -/
structure LeadingScanState where
  leadingComments : List String
  start : Nat
  lastCommentEndLine : Nat
  usedComments : List Nat
  deriving Repr

/-- The leading-comments loop of `parseImportNode`: skip comments already
used; for the first import, a comment block separated from the node by a
blank line belongs to the file header (marked used, not collected); otherwise
collect the comment, extend `start` leftwards and mark it used. -/
def scanLeadingComments (nodeStartLine : Nat) (isFirstImport : Bool)
    (comments : List BabelComment) (st : LeadingScanState) : LeadingScanState :=
  comments.foldl
    (fun st comment =>
      if st.usedComments.contains comment.cid then st
      else
        let commentEndLine := (comment.loc.map (·.2)).getD 0
        let emptyLinesBetween := nodeStartLine - commentEndLine - 1
        if isFirstImport && emptyLinesBetween ≥ 1 then
          { st with usedComments := st.usedComments ++ [comment.cid] }
        else
          let commentStart := comment.start.getD 0
          { leadingComments := st.leadingComments ++ renderComment comment
            start := if commentStart < st.start then commentStart else st.start
            lastCommentEndLine := commentEndLine
            usedComments := st.usedComments ++ [comment.cid] })
    st

/-- State threaded through the trailing-comments loop of `parseImportNode`. -/
structure TrailingScanState where
  trailingComments : List String
  nodeEnd : Nat
  usedComments : List Nat
  deriving Repr

/-- The trailing-comments loop of `parseImportNode`: only comments on the
node's last source line are taken; they extend the statement's `end` and are
marked used; comments on later lines are left for the next statement. -/
def scanTrailingComments (nodeLoc : Option (Nat × Nat))
    (comments : List BabelComment) (st : TrailingScanState) : TrailingScanState :=
  comments.foldl
    (fun st comment =>
      if st.usedComments.contains comment.cid then st
      else
        let isSameLine :=
          match comment.loc, nodeLoc with
          | some cl, some nl => cl.1 == nl.2
          | _, _ => false
        if isSameLine then
          let commentEnd := comment.«end».getD 0
          { trailingComments := st.trailingComments ++ renderComment comment
            nodeEnd := if commentEnd > st.nodeEnd then commentEnd else st.nodeEnd
            usedComments := st.usedComments ++ [comment.cid] }
        else st)
    st

/-- `parseImportSpecifiers`: one `ImportContent` per specifier; a whole-clause
`import type` marks every content as type. -/
def parseImportSpecifiers (specifiers : List BabelImportSpecifier)
    (isTypeOnlyImport : Bool) : List ImportContent :=
  specifiers.map (fun specifier =>
    match specifier with
    | .importDefaultSpecifier localName lc tc =>
      { name := "default"
        «alias» := some localName
        type := if isTypeOnlyImport then "type" else "variable"
        leadingComments := specifierComments lc
        trailingComments := specifierComments tc }
    | .importNamespaceSpecifier localName lc tc =>
      { name := "*"
        «alias» := some localName
        type := if isTypeOnlyImport then "type" else "variable"
        leadingComments := specifierComments lc
        trailingComments := specifierComments tc }
    | .importSpecifier importedName localName kindIsType lc tc =>
      { name := importedName
        «alias» := if importedName != localName then some localName else none
        type := if isTypeOnlyImport || kindIsType then "type" else "variable"
        leadingComments := specifierComments lc
        trailingComments := specifierComments tc })
where
  /-- The specifier-comment rendering loops (collect, then
  `length > 0 ? ... : undefined`). -/
  specifierComments (cs : Option (List BabelComment)) : Option (List String) :=
    let rendered := (cs.getD []).flatMap renderComment
    if rendered.length > 0 then some rendered else none

/-- `parseExportSpecifiers`: one `ImportContent` per `ExportSpecifier` (other
specifier kinds are skipped); a whole-clause `export type` marks every content
as type. -/
def parseExportSpecifiers (specifiers : List BabelExportSpecifier)
    (isTypeOnlyExport : Bool) : List ImportContent :=
  specifiers.flatMap (fun specifier =>
    match specifier with
    | .exportSpecifier localName exportedName kindIsType lc tc =>
      [{ name := localName
         «alias» := if localName != exportedName then some exportedName else none
         type := if isTypeOnlyExport || kindIsType then "type" else "variable"
         leadingComments :=
           let rendered := (lc.getD []).flatMap renderComment
           if rendered.length > 0 then some rendered else none
         trailingComments :=
           let rendered := (tc.getD []).flatMap renderComment
           if rendered.length > 0 then some rendered else none }]
    | .exportNamespaceSpecifier _ => [])

/-- `parseImportNode`: build the `ImportStatement` record for one node,
returning it together with the updated `usedComments` set.  (`comments` and
`code` are accepted and unused, as in the source.) -/
def parseImportNode (node : BabelNode) (comments : List BabelComment)
    (usedComments : List Nat) (code : String) (isFirstImport : Bool) :
    ImportStatement × List Nat :=
  let nodeSource := match node with
    | .importDeclaration s _ _ _ _ _ _ _ => s
    | .exportNamedDeclaration s _ _ _ _ _ _ _ => s
    | .exportAllDeclaration s _ _ _ _ _ => s
  let nodeLoc := match node with
    | .importDeclaration _ _ _ _ _ _ _ l => l
    | .exportNamedDeclaration _ _ _ _ _ _ _ l => l
    | .exportAllDeclaration _ _ _ _ _ l => l
  let nodeLeading := match node with
    | .importDeclaration _ _ _ lc _ _ _ _ => lc
    | .exportNamedDeclaration _ _ _ lc _ _ _ _ => lc
    | .exportAllDeclaration _ lc _ _ _ _ => lc
  let nodeTrailing := match node with
    | .importDeclaration _ _ _ _ tc _ _ _ => tc
    | .exportNamedDeclaration _ _ _ _ tc _ _ _ => tc
    | .exportAllDeclaration _ _ tc _ _ _ => tc
  let nodeStart := (match node with
    | .importDeclaration _ _ _ _ _ st _ _ => st
    | .exportNamedDeclaration _ _ _ _ _ st _ _ => st
    | .exportAllDeclaration _ _ _ st _ _ => st).getD 0
  let nodeEnd0 := (match node with
    | .importDeclaration _ _ _ _ _ _ en _ => en
    | .exportNamedDeclaration _ _ _ _ _ _ en _ => en
    | .exportAllDeclaration _ _ _ _ en _ => en).getD 0
  let nodeStartLine := (nodeLoc.map (·.1)).getD 0
  let leadSt : LeadingScanState :=
    { leadingComments := [], start := nodeStart, lastCommentEndLine := 0
      usedComments := usedComments }
  let leadSt := match nodeLeading with
    | some lcs => scanLeadingComments nodeStartLine isFirstImport lcs leadSt
    | none => leadSt
  let emptyLinesAfterComments :=
    if leadSt.leadingComments.length > 0 && leadSt.lastCommentEndLine > 0 then
      nodeStartLine - leadSt.lastCommentEndLine - 1
    else 0
  let trailSt : TrailingScanState :=
    { trailingComments := [], nodeEnd := nodeEnd0, usedComments := leadSt.usedComments }
  let trailSt := match nodeTrailing with
    | some tcs => scanTrailingComments nodeLoc tcs trailSt
    | none => trailSt
  let leadingComments := leadSt.leadingComments
  let trailingComments := trailSt.trailingComments
  let start := leadSt.start
  let «end» := trailSt.nodeEnd
  let statement : ImportStatement :=
    match node with
    | .importDeclaration _ importKindIsType specifiers _ _ _ _ _ =>
      let importContents := parseImportSpecifiers specifiers importKindIsType
      let isSideEffect := importContents.length == 0
      { path := nodeSource
        isExport := false
        isSideEffect := isSideEffect
        importContents := importContents
        leadingComments := if leadingComments.length > 0 then some leadingComments else none
        trailingComments := if trailingComments.length > 0 then some trailingComments else none
        emptyLinesAfterComments :=
          if emptyLinesAfterComments > 0 then some emptyLinesAfterComments else none
        start := some start
        «end» := some «end» }
    | .exportAllDeclaration _ _ _ _ _ _ =>
      { path := nodeSource
        isExport := true
        isSideEffect := true
        importContents := []
        leadingComments := if leadingComments.length > 0 then some leadingComments else none
        trailingComments := if trailingComments.length > 0 then some trailingComments else none
        emptyLinesAfterComments :=
          if emptyLinesAfterComments > 0 then some emptyLinesAfterComments else none
        start := some start
        «end» := some «end» }
    | .exportNamedDeclaration _ exportKindIsType specifiers _ _ _ _ _ =>
      let importContents := parseExportSpecifiers specifiers exportKindIsType
      { path := nodeSource
        isExport := true
        isSideEffect := false
        importContents := importContents
        leadingComments := if leadingComments.length > 0 then some leadingComments else none
        trailingComments := if trailingComments.length > 0 then some trailingComments else none
        emptyLinesAfterComments :=
          if emptyLinesAfterComments > 0 then some emptyLinesAfterComments else none
        start := some start
        «end» := some «end» }
  (statement, trailSt.usedComments)

/-! ## Orchestrator (`preprocessImports` in `src/index.ts`)

`preprocessImports` calls two external services: the Babel-based
`parseImports` (text → statements) and, when unused-import removal is on,
the Babel traversal behind `analyzeUsedIdentifiers`.  Both are passed in as
parameters; the configuration resolution (`createPlugin` config over
config-file over prettier options, each `?? false` for the booleans) is
modelled by receiving the already-resolved `PluginConfig`. -/

/-- `preprocessImports`: parse, optionally remove unused imports, sort, merge,
format (grouped when a `getGroup` is configured), then splice the formatted
block back between the untouched prefix and suffix of the input text. -/
def preprocessImports (parseFn : String → List ImportStatement)
    (traverseFn : String → TraversalOutcome) (config : PluginConfig)
    (text : String) : String :=
  let imports := parseFn text
  match imports with
  | [] => text
  | firstImport :: restImports =>
    let lastImport := (firstImport :: restImports).getLast (by simp)
    let processedImports :=
      if config.removeUnusedImports.getD false then
        let codeAfterImports := jsSliceFrom text (lastImport.«end».getD 0)
        removeUnusedImportsFromStatements imports (traverseFn codeAfterImports)
      else imports
    let sortedImports := sortImports processedImports config
    let mergedImports := mergeImports sortedImports
    let formattedImports :=
      match config.getGroup with
      | some _ =>
        let groups := groupImports mergedImports config
        let sortedGroups := sortGroups groups config
        formatGroups sortedGroups config
      | none => formatImportStatements mergedImports
    let startIndex := firstImport.start.getD 0
    let endIndex := lastImport.«end».getD text.length
    let beforeImports := jsSliceRange text 0 startIndex
    let afterImports := jsSliceFrom text endIndex
    let needsExtraNewline := afterImports != "" && !strStartsWith afterImports "\n"
    let separator := if needsExtraNewline then "\n\n" else "\n"
    beforeImports ++ formattedImports ++ separator ++ afterImports

/-! ## A concrete parser for bare side-effect imports

`Modelled from the spec:` the repository's `parseImports` delegates raw
parsing to the external `@babel/parser`, which is not part of `src/`.  The
spec describes its observable result: an ordered list of statement records
for the maximal leading run of import declarations, each with `start`/`end`
byte offsets covering the declaration, a side-effect statement being a bare
`import "path"` with no specifiers.  `miniParse` realises exactly that
contract for texts whose leading block consists of bare `import "path"`
declarations separated by newlines; anything else ends the scan, like the
first non-import statement does.  It is used to drive `preprocessImports` on
concrete inputs. -/

/-- Read the characters of a module path up to the closing quote. -/
def takePath : List Char → Option (List Char × List Char)
  | [] => none
  | c :: rest =>
    if c == '"' then some ([], rest)
    else (takePath rest).map (fun p => (c :: p.1, p.2))

/-- Skip newline characters, counting them. -/
def dropNewlines : List Char → Nat → List Char × Nat
  | c :: rest, n => if c == '\n' then dropNewlines rest (n + 1) else (c :: rest, n)
  | [], n => ([], n)

/-- Scan the leading run of bare `import "path"` declarations. -/
def miniParseAux : Nat → List Char → Nat → List ImportStatement
  | 0, _, _ => []
  | fuel + 1, cs, offset =>
    if "import \"".data.isPrefixOf cs then
      match takePath (cs.drop 8) with
      | none => []
      | some (pathChars, rest) =>
        let stmtEnd := offset + 9 + pathChars.length
        let next := dropNewlines rest 0
        { path := ⟨pathChars⟩
          isExport := false
          isSideEffect := true
          importContents := []
          start := some offset
          «end» := some stmtEnd } ::
          miniParseAux fuel next.1 (stmtEnd + next.2)
    else []

/-- `Modelled from the spec:` the observable `parseImports` result on texts
whose leading block is made of bare side-effect imports. -/
def miniParse (text : String) : List ImportStatement :=
  miniParseAux (text.data.length + 1) text.data 0

/-- A traversal stub for pipeline runs that never analyze (unused-import
removal off). -/
def noTraverse (_ : String) : TraversalOutcome := .ok []

/-! ## Generic lemmas about the JavaScript-semantics helpers -/

theorem jsInsert_perm (le : α → α → Bool) (a : α) (l : List α) :
    (jsInsert le a l).Perm (a :: l) := by
  induction l with
  | nil => simp [jsInsert]
  | cons b l ih =>
    unfold jsInsert
    by_cases h : le a b
    · simp [h]
    · simp only [h, if_neg, Bool.false_eq_true, not_false_eq_true, if_false]
      exact (ih.cons b).trans (List.Perm.swap a b l)

theorem jsSort_perm (cmp : α → α → Int) (l : List α) : (jsSort cmp l).Perm l := by
  induction l with
  | nil => simp [jsSort]
  | cons a l ih =>
    unfold jsSort
    exact (jsInsert_perm _ a (jsSort cmp l)).trans (ih.cons a)

theorem mem_jsSort {cmp : α → α → Int} {l : List α} {x : α} :
    x ∈ jsSort cmp l ↔ x ∈ l := (jsSort_perm cmp l).mem_iff


theorem jsMapGet_mem {m : List (String × α)} {k : String} {v : α}
    (h : jsMapGet m k = some v) : (k, v) ∈ m := by
  induction m with
  | nil => simp [jsMapGet] at h
  | cons kv m ih =>
    obtain ⟨k0, v0⟩ := kv
    unfold jsMapGet at h
    by_cases hk : k0 = k
    · simp only [hk, if_pos, Option.some.injEq] at h
      subst hk h
      exact List.mem_cons_self _ _
    · exact List.mem_cons_of_mem _ (ih (by simpa [hk] using h))

theorem jsMapGet_none_iff {m : List (String × α)} {k : String} :
    jsMapGet m k = none ↔ k ∉ m.map (·.1) := by
  induction m with
  | nil => simp [jsMapGet]
  | cons kv m ih =>
    obtain ⟨k0, v0⟩ := kv
    unfold jsMapGet
    by_cases hk : k0 = k
    · simp [hk]
    · simp [hk, ih, Ne.symm hk]

theorem jsMapSet_keys_present {m : List (String × α)} {k : String} (v : α)
    (h : k ∈ m.map (·.1)) :
    (jsMapSet m k v).map (·.1) = m.map (·.1) := by
  induction m with
  | nil => simp at h
  | cons kv m ih =>
    obtain ⟨k0, v0⟩ := kv
    unfold jsMapSet
    by_cases hk : k0 = k
    · simp [hk]
    · have h' : k ∈ m.map (·.1) := by
        simpa [hk, Ne.symm hk] using h
      simp [hk, ih h']

theorem jsMapSet_keys_new {m : List (String × α)} {k : String} (v : α)
    (h : k ∉ m.map (·.1)) :
    (jsMapSet m k v).map (·.1) = m.map (·.1) ++ [k] := by
  induction m with
  | nil => simp [jsMapSet]
  | cons kv m ih =>
    obtain ⟨k0, v0⟩ := kv
    have hk : k0 ≠ k := fun hk => h (by simp [hk])
    unfold jsMapSet
    rw [if_neg hk]
    simp only [List.map_cons, List.cons_append, List.cons.injEq, true_and]
    exact ih (fun hm => h (by simp [hm]))

theorem jsMapGet_set_self {m : List (String × α)} {k : String} (v : α) :
    jsMapGet (jsMapSet m k v) k = some v := by
  induction m with
  | nil => simp [jsMapSet, jsMapGet]
  | cons kv m ih =>
    obtain ⟨k0, v0⟩ := kv
    unfold jsMapSet
    by_cases hk : k0 = k
    · simp [hk, jsMapGet]
    · simp [hk, jsMapGet, ih]

theorem jsMapGet_set_ne {m : List (String × α)} {k k' : String} (v : α) (h : k' ≠ k) :
    jsMapGet (jsMapSet m k v) k' = jsMapGet m k' := by
  induction m with
  | nil => simp [jsMapSet, jsMapGet, Ne.symm h]
  | cons kv m ih =>
    obtain ⟨k0, v0⟩ := kv
    unfold jsMapSet
    by_cases hk : k0 = k
    · subst hk
      rw [if_pos rfl]
      unfold jsMapGet
      rw [if_neg (fun hq : k0 = k' => h hq.symm), if_neg (fun hq : k0 = k' => h hq.symm)]
    · rw [if_neg hk]
      unfold jsMapGet
      by_cases hk' : k0 = k'
      · rw [if_pos hk', if_pos hk']
      · rw [if_neg hk', if_neg hk']
        exact ih

theorem mem_jsMapSet (m : List (String × α)) (k : String) (v : α) :
    ∀ kv ∈ jsMapSet m k v, kv = (k, v) ∨ kv ∈ m := by
  induction m with
  | nil =>
    intro kv h
    simp only [jsMapSet, List.mem_singleton] at h
    exact Or.inl h
  | cons kv0 m ih =>
    obtain ⟨k0, v0⟩ := kv0
    intro kv h
    unfold jsMapSet at h
    by_cases hk : k0 = k
    · rw [if_pos hk] at h
      rcases List.mem_cons.mp h with h | h
      · exact Or.inl h
      · exact Or.inr (List.mem_cons_of_mem _ h)
    · rw [if_neg hk] at h
      rcases List.mem_cons.mp h with h | h
      · exact Or.inr (by simp [h])
      · rcases ih kv h with h' | h'
        · exact Or.inl h'
        · exact Or.inr (List.mem_cons_of_mem _ h')

theorem firstDedupAux_mem [DecidableEq α] (seen : List α) (l : List α) (a : α) :
    a ∈ firstDedupAux seen l → a ∈ l := by
  induction l generalizing seen with
  | nil => simp [firstDedupAux]
  | cons x xs ih =>
    intro h
    unfold firstDedupAux at h
    by_cases hx : x ∈ seen
    · rw [if_pos hx] at h
      exact List.mem_cons_of_mem _ (ih _ h)
    · rw [if_neg hx] at h
      rcases List.mem_cons.mp h with h | h
      · simp [h]
      · exact List.mem_cons_of_mem _ (ih _ h)

theorem mem_firstDedupAux [DecidableEq α] (seen : List α) (l : List α) (a : α)
    (ha : a ∈ l) (hs : a ∉ seen) : a ∈ firstDedupAux seen l := by
  induction l generalizing seen with
  | nil => simp at ha
  | cons x xs ih =>
    unfold firstDedupAux
    by_cases hx : x ∈ seen
    · rw [if_pos hx]
      rcases List.mem_cons.mp ha with h | h
      · exact absurd (h ▸ hx) hs
      · exact ih _ h hs
    · rw [if_neg hx]
      by_cases hax : a = x
      · simp [hax]
      · rcases List.mem_cons.mp ha with h | h
        · exact absurd h hax
        · exact List.mem_cons_of_mem _
            (ih _ h (by simp [hs, hax]))

theorem mem_firstDedup [DecidableEq α] {l : List α} {a : α} :
    a ∈ firstDedup l ↔ a ∈ l :=
  ⟨firstDedupAux_mem [] l a, fun h => mem_firstDedupAux [] l a h (by simp)⟩

theorem firstDedupAux_cons_mem [DecidableEq α] (seen : List α) (x : α) (xs : List α)
    (hx : x ∈ seen) : firstDedupAux seen (x :: xs) = firstDedupAux seen xs := by
  conv_lhs => unfold firstDedupAux
  rw [if_pos hx]

theorem firstDedupAux_cons_not_mem [DecidableEq α] (seen : List α) (x : α) (xs : List α)
    (hx : x ∉ seen) :
    firstDedupAux seen (x :: xs) = x :: firstDedupAux (seen ++ [x]) xs := by
  conv_lhs => unfold firstDedupAux
  rw [if_neg hx]

theorem firstDedupAux_append [DecidableEq α] (seen l : List α) (a : α) :
    firstDedupAux seen (l ++ [a]) =
      if a ∈ seen ∨ a ∈ l then firstDedupAux seen l
      else firstDedupAux seen l ++ [a] := by
  induction l generalizing seen with
  | nil =>
    by_cases ha : a ∈ seen
    · simp [firstDedupAux, ha]
    · simp [firstDedupAux, ha]
  | cons x xs ih =>
    rw [List.cons_append]
    by_cases hx : x ∈ seen
    · rw [firstDedupAux_cons_mem _ _ _ hx, firstDedupAux_cons_mem _ _ _ hx, ih seen]
      by_cases hax : a = x
      · have haseen : a ∈ seen := hax ▸ hx
        rw [if_pos (Or.inl haseen), if_pos (Or.inl haseen)]
      · by_cases ha : a ∈ seen ∨ a ∈ xs
        · rw [if_pos ha, if_pos (by tauto)]
        · rw [if_neg ha, if_neg (by
            rintro (h | h)
            · exact ha (Or.inl h)
            · rcases List.mem_cons.mp h with h | h
              · exact hax h
              · exact ha (Or.inr h))]
    · rw [firstDedupAux_cons_not_mem _ _ _ hx, firstDedupAux_cons_not_mem _ _ _ hx,
        ih (seen ++ [x])]
      by_cases hax : a = x
      · subst hax
        simp
      · by_cases ha : a ∈ seen ∨ a ∈ xs
        · rw [if_pos (by
            rcases ha with h | h
            · exact Or.inl (by simp [h])
            · exact Or.inr h), if_pos (by
            rcases ha with h | h
            · exact Or.inl h
            · exact Or.inr (List.mem_cons_of_mem _ h))]
        · rw [if_neg (by
            rintro (h | h)
            · rcases List.mem_append.mp h with h | h
              · exact ha (Or.inl h)
              · exact hax (by simpa using h)
            · exact ha (Or.inr h)), if_neg (by
            rintro (h | h)
            · exact ha (Or.inl h)
            · rcases List.mem_cons.mp h with h | h
              · exact hax h
              · exact ha (Or.inr h))]
          simp

theorem firstDedup_append [DecidableEq α] (l : List α) (a : α) :
    firstDedup (l ++ [a]) =
      if a ∈ l then firstDedup l else firstDedup l ++ [a] := by
  unfold firstDedup
  rw [firstDedupAux_append]
  simp

theorem firstDedupAux_not_seen [DecidableEq α] (seen l : List α) (a : α)
    (ha : a ∈ seen) : a ∉ firstDedupAux seen l := by
  induction l generalizing seen with
  | nil => simp [firstDedupAux]
  | cons x xs ih =>
    by_cases hx : x ∈ seen
    · rw [firstDedupAux_cons_mem _ _ _ hx]
      exact ih seen ha
    · rw [firstDedupAux_cons_not_mem _ _ _ hx]
      intro hmem
      rcases List.mem_cons.mp hmem with h | h
      · exact hx (h ▸ ha)
      · exact ih (seen ++ [x]) (by simp [ha]) h

theorem firstDedupAux_nodup [DecidableEq α] (seen l : List α) :
    (firstDedupAux seen l).Nodup := by
  induction l generalizing seen with
  | nil => simp [firstDedupAux]
  | cons x xs ih =>
    by_cases hx : x ∈ seen
    · rw [firstDedupAux_cons_mem _ _ _ hx]
      exact ih seen
    · rw [firstDedupAux_cons_not_mem _ _ _ hx]
      exact List.Nodup.cons
        (firstDedupAux_not_seen (seen ++ [x]) xs x (by simp)) (ih (seen ++ [x]))

theorem firstDedup_nodup [DecidableEq α] (l : List α) : (firstDedup l).Nodup :=
  firstDedupAux_nodup [] l

/-! ## Disjointness of the merge-map key families

`mergeImports` files statements under string keys.  Mergeable keys end in
`|||true` / `|||false`, the unmergeable ones in `|||<decimal or undefined>`;
the lemmas below make the resulting disjointness precise by looking at the
final `|`-free token of a key. -/

/-- A decimal digit character. -/
def isDigitChar (c : Char) : Prop := ∃ k, k < 10 ∧ c = Char.ofNat (48 + k)

theorem natReprAux_digits (fuel : Nat) : ∀ (n : Nat) (acc : List Char),
    (∀ c ∈ acc, isDigitChar c) → ∀ c ∈ natReprAux fuel n acc, isDigitChar c := by
  induction fuel with
  | zero => intro n acc h c hc; exact h c hc
  | succ fuel ih =>
    intro n acc h c hc
    unfold natReprAux at hc
    have hd : isDigitChar (Char.ofNat (48 + n % 10)) :=
      ⟨n % 10, Nat.mod_lt _ (by norm_num), rfl⟩
    by_cases hn : n < 10
    · rw [if_pos hn] at hc
      rcases List.mem_cons.mp hc with h' | h'
      · exact h' ▸ hd
      · exact h c h'
    · rw [if_neg hn] at hc
      refine ih (n / 10) _ ?_ c hc
      intro c' hc'
      rcases List.mem_cons.mp hc' with h' | h'
      · exact h' ▸ hd
      · exact h c' h'

theorem natRepr_digits (n : Nat) : ∀ c ∈ (natRepr n).data, isDigitChar c :=
  natReprAux_digits (n + 1) n [] (by simp)

theorem digitChar_ne_pipe {c : Char} (h : isDigitChar c) : c ≠ '|' := by
  obtain ⟨k, hk, rfl⟩ := h
  revert hk
  revert k
  decide

theorem startStr_pipeFree (st : Option Nat) : ∀ c ∈ (startStr st).data, c ≠ '|' := by
  cases st with
  | none =>
    intro c hc
    revert hc
    revert c
    decide
  | some n => exact fun c hc => digitChar_ne_pipe (natRepr_digits n c hc)

theorem boolStr_pipeFree (b : Bool) : ∀ c ∈ (boolStr b).data, c ≠ '|' := by
  cases b <;> decide

theorem boolStr_data_ne_startStr_data (b : Bool) (st : Option Nat) :
    (boolStr b).data ≠ (startStr st).data := by
  cases st with
  | none => cases b <;> decide
  | some n =>
    intro h
    cases b with
    | true =>
      have hr : 'r' ∈ (startStr (some n)).data := by
        rw [← h]
        decide
      have : isDigitChar 'r' := natRepr_digits n _ hr
      obtain ⟨k, hk, hc⟩ := this
      revert hc
      revert hk
      revert k
      decide
    | false =>
      have hr : 'l' ∈ (startStr (some n)).data := by
        rw [← h]
        decide
      have : isDigitChar 'l' := natRepr_digits n _ hr
      obtain ⟨k, hk, hc⟩ := this
      revert hc
      revert hk
      revert k
      decide

/-- The final `|`-free token of a character list. -/
def lastTok (l : List Char) : List Char :=
  (l.reverse.takeWhile (fun c => c ≠ '|')).reverse

theorem takeWhile_all_append {p : Char → Bool} {w : List Char}
    (hw : ∀ c ∈ w, p c = true) {x : Char} (hx : p x = false) (rest : List Char) :
    (w ++ x :: rest).takeWhile p = w := by
  induction w with
  | nil => simp [List.takeWhile_cons, hx]
  | cons a w ih =>
    rw [List.cons_append, List.takeWhile_cons]
    rw [hw a (by simp)]
    simp only [if_pos]
    rw [ih (fun c hc => hw c (by simp [hc]))]

theorem lastTok_append {a u : List Char} (hu : ∀ c ∈ u, c ≠ '|') :
    lastTok (a ++ '|' :: u) = u := by
  unfold lastTok
  rw [List.reverse_append, List.reverse_cons]
  rw [List.append_assoc, List.singleton_append]
  rw [takeWhile_all_append (fun c hc => by simp [hu c (List.mem_reverse.mp hc)])
    (by simp) _]
  exact List.reverse_reverse u

theorem pipes_data : ("|||" : String).data = ['|', '|', '|'] := rfl

theorem mergeKeyOf_data (p : String) (e : Bool) :
    (mergeKeyOf p e).data = (p.data ++ ['|', '|']) ++ '|' :: (boolStr e).data := by
  unfold mergeKeyOf
  rw [String.data_append, String.data_append, pipes_data]
  simp

theorem lastTok_mergeKeyOf (p : String) (e : Bool) :
    lastTok (mergeKeyOf p e).data = (boolStr e).data := by
  rw [mergeKeyOf_data]
  exact lastTok_append (boolStr_pipeFree e)

theorem sideEffectKey_data (s : ImportStatement) :
    (sideEffectKey s).data =
      (s.path.data ++ ['|', '|', '|'] ++ (boolStr s.isExport).data ++
        "|||sideEffect||".data) ++ '|' :: (startStr s.start).data := by
  unfold sideEffectKey
  rw [String.data_append, String.data_append, String.data_append, String.data_append,
    pipes_data]
  have h : ("|||sideEffect|||" : String).data = "|||sideEffect||".data ++ '|' :: [] := by
    decide
  rw [h]
  simp

theorem lastTok_sideEffectKey (s : ImportStatement) :
    lastTok (sideEffectKey s).data = (startStr s.start).data := by
  rw [sideEffectKey_data]
  exact lastTok_append (startStr_pipeFree s.start)

theorem namespaceKey_data (s : ImportStatement) :
    (namespaceKey s).data =
      (s.path.data ++ ['|', '|', '|'] ++ (boolStr s.isExport).data ++
        "|||namespace||".data) ++ '|' :: (startStr s.start).data := by
  unfold namespaceKey
  rw [String.data_append, String.data_append, String.data_append, String.data_append,
    pipes_data]
  have h : ("|||namespace|||" : String).data = "|||namespace||".data ++ '|' :: [] := by
    decide
  rw [h]
  simp

theorem lastTok_namespaceKey (s : ImportStatement) :
    lastTok (namespaceKey s).data = (startStr s.start).data := by
  rw [namespaceKey_data]
  exact lastTok_append (startStr_pipeFree s.start)

theorem sideEffectKey_ne_mergeKeyOf (s : ImportStatement) (p : String) (e : Bool) :
    sideEffectKey s ≠ mergeKeyOf p e := by
  intro h
  have hd := congrArg (fun x => lastTok (String.data x)) h
  simp only [lastTok_sideEffectKey, lastTok_mergeKeyOf] at hd
  exact boolStr_data_ne_startStr_data e s.start hd.symm

theorem namespaceKey_ne_mergeKeyOf (s : ImportStatement) (p : String) (e : Bool) :
    namespaceKey s ≠ mergeKeyOf p e := by
  intro h
  have hd := congrArg (fun x => lastTok (String.data x)) h
  simp only [lastTok_namespaceKey, lastTok_mergeKeyOf] at hd
  exact boolStr_data_ne_startStr_data e s.start hd.symm

theorem boolStr_inj {e1 e2 : Bool} (h : (boolStr e1).data = (boolStr e2).data) :
    e1 = e2 := by
  cases e1 <;> cases e2 <;> first | rfl | exact absurd h (by decide)

theorem mergeKeyOf_inj {p1 p2 : String} {e1 e2 : Bool}
    (h : mergeKeyOf p1 e1 = mergeKeyOf p2 e2) : p1 = p2 ∧ e1 = e2 := by
  have hd := congrArg String.data h
  have htok := congrArg lastTok hd
  rw [lastTok_mergeKeyOf, lastTok_mergeKeyOf] at htok
  have he : e1 = e2 := boolStr_inj htok
  subst he
  rw [mergeKeyOf_data, mergeKeyOf_data] at hd
  have hp : p1.data ++ (['|', '|'] ++ '|' :: (boolStr e1).data) =
      p2.data ++ (['|', '|'] ++ '|' :: (boolStr e1).data) := by
    simpa [List.append_assoc] using hd
  exact ⟨String.ext (List.append_cancel_right hp), rfl⟩

/-! ## The merge-map invariant -/

/-- A statement that participates in cross-statement merging: neither
side-effect nor carrying a namespace specifier. -/
def isMergeable (s : ImportStatement) : Bool :=
  !s.isSideEffect && !hasNamespaceImport s

/-- Membership of a statement in the merge class of `(path, isExport)`. -/
def mergeableWith (p : String) (e : Bool) (s : ImportStatement) : Bool :=
  isMergeable s && s.path == p && s.isExport == e

/-- The deduplication key of a specifier: `(name, alias)`. -/
def contentKey (c : ImportContent) : String × Option String := (c.name, c.alias)

/-- Folding a merge class into its single output statement: the first
statement of the class absorbs the others in order. -/
def combineFold (i : ImportStatement) (rest : List ImportStatement) : ImportStatement :=
  rest.foldl mergeTwoStatements i

/-- The value `mergeImports` ends up storing for a merge class. -/
def combineAllOpt : List ImportStatement → Option ImportStatement
  | [] => none
  | i :: rest => some (combineFold i rest)

theorem statementKey_of_mergeable {s : ImportStatement} (h : isMergeable s = true) :
    statementKey s = mergeKey s := by
  unfold isMergeable at h
  unfold statementKey
  rw [if_neg (by simp_all), if_neg (by simp_all)]

theorem statementKey_eq_mergeKeyOf {s : ImportStatement} {p : String} {e : Bool}
    (h : statementKey s = mergeKeyOf p e) :
    isMergeable s = true ∧ s.path = p ∧ s.isExport = e := by
  unfold statementKey at h
  by_cases hse : s.isSideEffect
  · rw [if_pos hse] at h
    exact absurd h (sideEffectKey_ne_mergeKeyOf s p e)
  · rw [if_neg hse] at h
    by_cases hns : hasNamespaceImport s
    · rw [if_pos hns] at h
      exact absurd h (namespaceKey_ne_mergeKeyOf s p e)
    · rw [if_neg hns] at h
      obtain ⟨hp, he⟩ := mergeKeyOf_inj h
      exact ⟨by simp [isMergeable, hse, hns], hp, he⟩

theorem mergeableWith_self {s : ImportStatement} (h : isMergeable s = true) :
    mergeableWith s.path s.isExport s = true := by
  simp [mergeableWith, h]

theorem mergeableWith_key {p : String} {e : Bool} {s : ImportStatement}
    (h : mergeableWith p e s = true) :
    isMergeable s = true ∧ s.path = p ∧ s.isExport = e := by
  unfold mergeableWith at h
  simp only [Bool.and_eq_true, beq_iff_eq] at h
  exact ⟨h.1.1, h.1.2, h.2⟩

theorem mergeableWith_false_of_key_ne {p : String} {e : Bool} {s : ImportStatement}
    (hs : isMergeable s = true → mergeKeyOf p e ≠ mergeKey s) :
    mergeableWith p e s = false := by
  by_contra h
  have h' := mergeableWith_key (by simpa using h)
  exact hs h'.1 (by rw [mergeKey, h'.2.1, h'.2.2])

/-- The invariant tying the merge map to the statements already folded in:
its key list is the first-occurrence deduplication of the statements' keys,
every stored value sits under its own key, and the value under a mergeable key
is the in-order combination of that key's statements so far. -/
def MergeMapInv (processed : List ImportStatement)
    (m : List (String × ImportStatement)) : Prop :=
  m.map (·.1) = firstDedup (processed.map statementKey) ∧
  (∀ kv ∈ m, statementKey kv.2 = kv.1) ∧
  ∀ p e, jsMapGet m (mergeKeyOf p e) =
    combineAllOpt (processed.filter (mergeableWith p e))

theorem mergeContentComments_name (e c : ImportContent) :
    (mergeContentComments e c).name = e.name := by
  unfold mergeContentComments
  cases c.leadingComments <;> cases c.trailingComments <;> rfl

theorem mergeContentComments_alias (e c : ImportContent) :
    (mergeContentComments e c).alias = e.alias := by
  unfold mergeContentComments
  cases c.leadingComments <;> cases c.trailingComments <;> rfl

theorem mem_insertMergedContent (acc : List ImportContent) (c : ImportContent) :
    ∀ x ∈ insertMergedContent acc c, (∃ y ∈ acc, x.name = y.name) ∨ x = c := by
  induction acc with
  | nil =>
    intro x hx
    simp only [insertMergedContent, List.mem_singleton] at hx
    exact Or.inr hx
  | cons e rest ih =>
    intro x hx
    unfold insertMergedContent at hx
    by_cases he : e.name == c.name && e.alias == c.alias
    · rw [if_pos he] at hx
      rcases List.mem_cons.mp hx with h | h
      · exact Or.inl ⟨e, by simp, by rw [h, mergeContentComments_name]⟩
      · exact Or.inl ⟨x, List.mem_cons_of_mem _ h, rfl⟩
    · rw [if_neg he] at hx
      rcases List.mem_cons.mp hx with h | h
      · exact Or.inl ⟨e, by simp, by rw [h]⟩
      · rcases ih x h with ⟨y, hy, hxy⟩ | h'
        · exact Or.inl ⟨y, List.mem_cons_of_mem _ hy, hxy⟩
        · exact Or.inr h'

theorem mem_foldl_insertMergedContent (cs : List ImportContent) :
    ∀ (acc : List ImportContent), ∀ x ∈ cs.foldl insertMergedContent acc,
      (∃ y ∈ acc, x.name = y.name) ∨ ∃ c ∈ cs, x.name = c.name := by
  induction cs with
  | nil =>
    intro acc x hx
    exact Or.inl ⟨x, hx, rfl⟩
  | cons c cs ih =>
    intro acc x hx
    rw [List.foldl_cons] at hx
    rcases ih (insertMergedContent acc c) x hx with ⟨y, hy, hxy⟩ | ⟨c', hc', hxc⟩
    · rcases mem_insertMergedContent acc c y hy with ⟨z, hz, hyz⟩ | hyc
      · exact Or.inl ⟨z, hz, hxy.trans hyz⟩
      · exact Or.inr ⟨c, by simp, hxy.trans (by rw [hyc])⟩
    · exact Or.inr ⟨c', List.mem_cons_of_mem _ hc', hxc⟩

theorem mergeTwoStatements_path (a b : ImportStatement) :
    (mergeTwoStatements a b).path = a.path := rfl

theorem mergeTwoStatements_isExport (a b : ImportStatement) :
    (mergeTwoStatements a b).isExport = a.isExport := rfl

theorem mergeTwoStatements_isSideEffect (a b : ImportStatement) :
    (mergeTwoStatements a b).isSideEffect = a.isSideEffect := rfl

theorem mergeTwoStatements_contents (a b : ImportStatement) :
    (mergeTwoStatements a b).importContents =
      b.importContents.foldl insertMergedContent a.importContents := rfl

theorem hasNamespaceImport_eq_false_iff {s : ImportStatement} :
    hasNamespaceImport s = false ↔ ∀ c ∈ s.importContents, c.name ≠ "*" := by
  unfold hasNamespaceImport
  simp [List.any_eq_true]

theorem isMergeable_mergeTwo {a b : ImportStatement} (ha : isMergeable a = true)
    (hb : isMergeable b = true) : isMergeable (mergeTwoStatements a b) = true := by
  unfold isMergeable at ha hb ⊢
  simp only [Bool.and_eq_true, Bool.not_eq_true'] at ha hb ⊢
  refine ⟨by rw [mergeTwoStatements_isSideEffect]; exact ha.1, ?_⟩
  rw [hasNamespaceImport_eq_false_iff]
  intro c hc
  rw [mergeTwoStatements_contents] at hc
  rcases mem_foldl_insertMergedContent _ _ c hc with ⟨y, hy, hcy⟩ | ⟨c', hc', hcc⟩
  · exact hcy ▸ (hasNamespaceImport_eq_false_iff.mp ha.2 y hy)
  · exact hcc ▸ (hasNamespaceImport_eq_false_iff.mp hb.2 c' hc')

theorem mergeableWith_false_of_not_mergeable {p : String} {e : Bool}
    {s : ImportStatement} (h : isMergeable s = false) :
    mergeableWith p e s = false := by
  simp [mergeableWith, h]

theorem combineAllOpt_eq_none_iff {l : List ImportStatement} :
    combineAllOpt l = none ↔ l = [] := by
  cases l <;> simp [combineAllOpt]

theorem mergeStep_inv_unmergeable {processed : List ImportStatement}
    {m : List (String × ImportStatement)} (inv : MergeMapInv processed m)
    {s : ImportStatement} {key : String}
    (hkey : statementKey s = key)
    (hkeyne : ∀ p e, key ≠ mergeKeyOf p e)
    (hnm : isMergeable s = false) :
    MergeMapInv (processed ++ [s]) (jsMapSet m key s) := by
  obtain ⟨h1, h2, h3⟩ := inv
  refine ⟨?_, ?_, ?_⟩
  · rw [List.map_append, List.map_cons, List.map_nil, hkey, firstDedup_append]
    by_cases hmem : key ∈ m.map (·.1)
    · rw [jsMapSet_keys_present _ hmem, h1,
        if_pos (mem_firstDedup.mp (h1 ▸ hmem))]
    · rw [jsMapSet_keys_new _ hmem, h1,
        if_neg (fun hmemp => hmem (h1 ▸ mem_firstDedup.mpr hmemp))]
  · intro kv hkv
    rcases mem_jsMapSet m key s kv hkv with h | h
    · rw [h]
      exact hkey
    · exact h2 kv h
  · intro p e
    rw [jsMapGet_set_ne _ (Ne.symm (hkeyne p e)), h3 p e, List.filter_append]
    simp [mergeableWith_false_of_not_mergeable hnm]

theorem mergeStep_inv {processed : List ImportStatement}
    {m : List (String × ImportStatement)} (inv : MergeMapInv processed m)
    (s : ImportStatement) : MergeMapInv (processed ++ [s]) (mergeStep m s) := by
  by_cases hse : s.isSideEffect
  · have hstep : mergeStep m s = jsMapSet m (sideEffectKey s) s := by
      unfold mergeStep
      rw [if_pos hse]
    rw [hstep]
    exact mergeStep_inv_unmergeable inv
      (by unfold statementKey; rw [if_pos hse])
      (fun p e => sideEffectKey_ne_mergeKeyOf s p e)
      (by simp [isMergeable, hse])
  · by_cases hns : hasNamespaceImport s
    · have hstep : mergeStep m s = jsMapSet m (namespaceKey s) s := by
        unfold mergeStep
        rw [if_neg hse, if_pos hns]
      rw [hstep]
      exact mergeStep_inv_unmergeable inv
        (by unfold statementKey; rw [if_neg hse, if_pos hns])
        (fun p e => namespaceKey_ne_mergeKeyOf s p e)
        (by simp [isMergeable, hns])
    · have hmg : isMergeable s = true := by
        simp [isMergeable, hse, hns]
      have hkey : statementKey s = mergeKey s := statementKey_of_mergeable hmg
      have hkeyOf : mergeKey s = mergeKeyOf s.path s.isExport := rfl
      obtain ⟨h1, h2, h3⟩ := inv
      have hstep : mergeStep m s =
          (match jsMapGet m (mergeKey s) with
           | none => jsMapSet m (mergeKey s) s
           | some existing => jsMapSet m (mergeKey s) (mergeTwoStatements existing s)) := by
        unfold mergeStep
        rw [if_neg hse, if_neg hns]
      cases hget : jsMapGet m (mergeKey s) with
      | none =>
        rw [hstep, hget]
        have hfilter : processed.filter (mergeableWith s.path s.isExport) = [] := by
          rw [← combineAllOpt_eq_none_iff, ← h3 s.path s.isExport, ← hkeyOf]
          exact hget
        refine ⟨?_, ?_, ?_⟩
        · have hmem : mergeKey s ∉ m.map (·.1) := jsMapGet_none_iff.mp hget
          rw [List.map_append, List.map_cons, List.map_nil, hkey, firstDedup_append,
            jsMapSet_keys_new _ hmem, h1,
            if_neg (fun hmemp => hmem (h1 ▸ mem_firstDedup.mpr hmemp))]
        · intro kv hkv
          rcases mem_jsMapSet m (mergeKey s) s kv hkv with h | h
          · rw [h]
            exact hkey
          · exact h2 kv h
        · intro p e
          by_cases hpe : mergeKeyOf p e = mergeKey s
          · rw [hpe, jsMapGet_set_self]
            obtain ⟨hp, hev⟩ := mergeKeyOf_inj (hpe.trans hkeyOf)
            subst hp hev
            rw [List.filter_append, hfilter]
            simp [mergeableWith_self hmg, combineAllOpt, combineFold]
          · rw [jsMapGet_set_ne _ hpe, h3 p e, List.filter_append]
            have : mergeableWith p e s = false :=
              mergeableWith_false_of_key_ne (fun _ => hpe)
            simp [this]
      | some existing =>
        rw [hstep, hget]
        have hentry : (mergeKey s, existing) ∈ m := jsMapGet_mem hget
        have hexkey : statementKey existing = mergeKey s := h2 _ hentry
        obtain ⟨hexmg, hexpath, hexex⟩ := statementKey_eq_mergeKeyOf (hexkey.trans hkeyOf)
        have hv'mg : isMergeable (mergeTwoStatements existing s) = true :=
          isMergeable_mergeTwo hexmg hmg
        have hv'key : statementKey (mergeTwoStatements existing s) = mergeKey s := by
          rw [statementKey_of_mergeable hv'mg]
          show mergeKeyOf (mergeTwoStatements existing s).path
            (mergeTwoStatements existing s).isExport = mergeKey s
          rw [mergeTwoStatements_path, mergeTwoStatements_isExport, hexpath, hexex]
          exact hkeyOf.symm
        have hmem : mergeKey s ∈ m.map (·.1) := by
          by_contra hmem
          rw [jsMapGet_none_iff.mpr hmem] at hget
          exact Option.noConfusion hget
        refine ⟨?_, ?_, ?_⟩
        · rw [List.map_append, List.map_cons, List.map_nil, hkey, firstDedup_append,
            jsMapSet_keys_present _ hmem, h1, if_pos (mem_firstDedup.mp (h1 ▸ hmem))]
        · intro kv hkv
          rcases mem_jsMapSet m (mergeKey s) (mergeTwoStatements existing s) kv hkv with h | h
          · rw [h]
            exact hv'key
          · exact h2 kv h
        · intro p e
          by_cases hpe : mergeKeyOf p e = mergeKey s
          · rw [hpe, jsMapGet_set_self]
            obtain ⟨hp, hev⟩ := mergeKeyOf_inj (hpe.trans hkeyOf)
            subst hp hev
            have h3' := h3 s.path s.isExport
            rw [← hkeyOf, hget] at h3'
            cases hfil : processed.filter (mergeableWith s.path s.isExport) with
            | nil =>
              rw [hfil] at h3'
              exact absurd h3'.symm (by simp [combineAllOpt])
            | cons i rest =>
              rw [hfil] at h3'
              have hex : existing = combineFold i rest := by
                have := h3'.symm
                simp only [combineAllOpt, Option.some.injEq] at this
                exact this.symm
              rw [List.filter_append, hfil]
              simp only [mergeableWith_self hmg, List.filter_cons_of_pos, List.filter_nil,
                combineAllOpt, List.cons_append, Option.some.injEq]
              rw [hex]
              unfold combineFold
              rw [List.foldl_append]
              rfl
          · rw [jsMapGet_set_ne _ hpe, h3 p e, List.filter_append]
            have : mergeableWith p e s = false :=
              mergeableWith_false_of_key_ne (fun _ => hpe)
            simp [this]

theorem mergeFold_inv (rest : List ImportStatement) :
    ∀ (processed : List ImportStatement) (m : List (String × ImportStatement)),
      MergeMapInv processed m →
      MergeMapInv (processed ++ rest) (rest.foldl mergeStep m) := by
  induction rest with
  | nil =>
    intro processed m h
    simpa using h
  | cons s rest ih =>
    intro processed m h
    have h' := ih (processed ++ [s]) (mergeStep m s) (mergeStep_inv h s)
    simpa using h'

theorem mergeImports_inv (l : List ImportStatement) :
    MergeMapInv l (l.foldl mergeStep []) := by
  have h0 : MergeMapInv [] ([] : List (String × ImportStatement)) := by
    refine ⟨rfl, by simp, ?_⟩
    intro p e
    simp [jsMapGet, combineAllOpt]
  simpa using mergeFold_inv l [] [] h0

theorem filter_values_by_key (m : List (String × ImportStatement)) (k : String)
    (P : ImportStatement → Bool)
    (hP : ∀ kv ∈ m, (P kv.2 = true ↔ kv.1 = k))
    (hnd : (m.map (·.1)).Nodup) :
    (m.map (·.2)).filter P = (jsMapGet m k).toList := by
  induction m with
  | nil => simp [jsMapGet]
  | cons kv m ih =>
    obtain ⟨k0, v0⟩ := kv
    rw [List.map_cons, List.filter_cons]
    have hnd' : (m.map (·.1)).Nodup := (List.nodup_cons.mp (by simpa using hnd)).2
    have hk0 : k0 ∉ m.map (·.1) := (List.nodup_cons.mp (by simpa using hnd)).1
    by_cases hk : k0 = k
    · subst hk
      have hp : P v0 = true := (hP (k0, v0) (List.mem_cons_self _ _)).mpr rfl
      rw [if_pos hp]
      have htail : (m.map (·.2)).filter P = [] := by
        rw [List.filter_eq_nil_iff]
        intro v hv
        obtain ⟨kv', hkv', hkv'2⟩ := List.mem_map.mp hv
        intro hPv
        have := (hP kv' (List.mem_cons_of_mem _ hkv')).mp (by rw [hkv'2]; exact hPv)
        exact hk0 (by
          rw [← this]
          exact List.mem_map.mpr ⟨kv', hkv', rfl⟩)
      rw [htail]
      unfold jsMapGet
      rw [if_pos rfl]
      rfl
    · have hp : P v0 = false := by
        rw [← Bool.not_eq_true]
        intro hq
        exact hk ((hP (k0, v0) (List.mem_cons_self _ _)).mp hq)
      rw [if_neg (by simp [hp])]
      unfold jsMapGet
      rw [if_neg hk]
      exact ih (fun kv' hkv' => hP kv' (List.mem_cons_of_mem _ hkv')) hnd'

theorem mergeImports_mergeable_class (l : List ImportStatement) (p : String) (e : Bool) :
    (mergeImports l).filter (mergeableWith p e) =
      (combineAllOpt (l.filter (mergeableWith p e))).toList := by
  obtain ⟨h1, h2, h3⟩ := mergeImports_inv l
  unfold mergeImports
  rw [filter_values_by_key _ (mergeKeyOf p e) _ ?_ ?_]
  · rw [h3 p e]
  · intro kv hkv
    constructor
    · intro hm
      obtain ⟨hmg, hp, he⟩ := mergeableWith_key hm
      rw [← h2 kv hkv, statementKey_of_mergeable hmg]
      show mergeKeyOf kv.2.path kv.2.isExport = mergeKeyOf p e
      rw [hp, he]
    · intro hk
      have := h2 kv hkv
      rw [hk] at this
      obtain ⟨hmg, hp, he⟩ := statementKey_eq_mergeKeyOf this
      simp [mergeableWith, hmg, hp, he]
  · rw [h1]
    exact firstDedup_nodup _

/-! ## Content-key bookkeeping for the merge class -/

/-- The key stream produced by repeatedly inserting with first-occurrence
deduplication. -/
def accDedup [DecidableEq α] (ks : List α) (cs : List α) : List α :=
  cs.foldl (fun ks k => if k ∈ ks then ks else ks ++ [k]) ks

theorem keys_insertMergedContent (acc : List ImportContent) (c : ImportContent) :
    (insertMergedContent acc c).map contentKey =
      if contentKey c ∈ acc.map contentKey then acc.map contentKey
      else acc.map contentKey ++ [contentKey c] := by
  induction acc with
  | nil => simp [insertMergedContent]
  | cons e rest ih =>
    unfold insertMergedContent
    by_cases he : e.name == c.name && e.alias == c.alias
    · rw [if_pos he]
      have hkeq : contentKey e = contentKey c := by
        simp only [Bool.and_eq_true, beq_iff_eq] at he
        simp [contentKey, he.1, he.2]
      rw [List.map_cons, List.map_cons]
      have : contentKey (mergeContentComments e c) = contentKey e := by
        simp [contentKey, mergeContentComments_name, mergeContentComments_alias]
      rw [this, if_pos (by simp [hkeq])]
    · rw [if_neg he]
      have hkne : contentKey c ≠ contentKey e := by
        intro hq
        apply he
        simp only [contentKey, Prod.mk.injEq] at hq
        simp [hq.1, hq.2]
      rw [List.map_cons, List.map_cons, ih]
      by_cases hc : contentKey c ∈ rest.map contentKey
      · rw [if_pos hc, if_pos (by simp [hc])]
      · rw [if_neg hc, if_neg (by
          intro hq
          rcases List.mem_cons.mp hq with h | h
          · exact hkne h
          · exact hc h)]
        simp

theorem keys_foldl_insertMergedContent (cs : List ImportContent) :
    ∀ acc : List ImportContent,
      (cs.foldl insertMergedContent acc).map contentKey =
        accDedup (acc.map contentKey) (cs.map contentKey) := by
  induction cs with
  | nil => intro acc; rfl
  | cons c cs ih =>
    intro acc
    rw [List.foldl_cons, ih, List.map_cons]
    unfold accDedup
    rw [List.foldl_cons, keys_insertMergedContent]
    congr 1
    by_cases hc : contentKey c ∈ List.map contentKey acc
    · rw [if_pos hc, if_pos hc]
    · rw [if_neg hc, if_neg hc]

theorem accDedup_eq_firstDedupAux [DecidableEq α] (cs : List α) :
    ∀ b : List α, accDedup b cs = b ++ firstDedupAux b cs := by
  induction cs with
  | nil => intro b; simp [accDedup, firstDedupAux]
  | cons k cs ih =>
    intro b
    unfold accDedup
    rw [List.foldl_cons]
    by_cases hk : k ∈ b
    · rw [if_pos hk, firstDedupAux_cons_mem _ _ _ hk]
      exact ih b
    · rw [if_neg hk, firstDedupAux_cons_not_mem _ _ _ hk]
      have := ih (b ++ [k])
      unfold accDedup at this
      rw [this]
      simp

theorem firstDedupAux_nodup_front [DecidableEq α] (b : List α) :
    ∀ (seen c : List α), (∀ x ∈ b, x ∉ seen) → b.Nodup →
      firstDedupAux seen (b ++ c) = b ++ firstDedupAux (seen ++ b) c := by
  induction b with
  | nil => intro seen c _ _; simp
  | cons x b ih =>
    intro seen c hb hnd
    rw [List.cons_append, firstDedupAux_cons_not_mem _ _ _ (hb x (by simp))]
    rw [ih (seen ++ [x]) c ?_ (List.nodup_cons.mp hnd).2]
    · simp
    · intro y hy
      simp only [List.mem_append, List.mem_singleton]
      rintro (h | h)
      · exact hb y (List.mem_cons_of_mem _ hy) h
      · exact (List.nodup_cons.mp hnd).1 (h ▸ hy)

theorem combineFold_contents (rest : List ImportStatement) :
    ∀ i : ImportStatement,
      (combineFold i rest).importContents =
        (rest.flatMap (·.importContents)).foldl insertMergedContent i.importContents := by
  induction rest with
  | nil => intro i; rfl
  | cons s rest ih =>
    intro i
    unfold combineFold
    rw [List.foldl_cons]
    have := ih (mergeTwoStatements i s)
    unfold combineFold at this
    rw [this, mergeTwoStatements_contents, List.flatMap_cons, List.foldl_append]

theorem combineFold_content_keys {i : ImportStatement} {rest : List ImportStatement}
    (hnd : (i.importContents.map contentKey).Nodup) :
    (combineFold i rest).importContents.map contentKey =
      firstDedup (((i :: rest).flatMap (·.importContents)).map contentKey) := by
  rw [combineFold_contents, keys_foldl_insertMergedContent, accDedup_eq_firstDedupAux,
    List.flatMap_cons, List.map_append]
  unfold firstDedup
  rw [firstDedupAux_nodup_front _ [] _ (by simp) hnd]
  simp [List.map_flatMap]

theorem jsMapSet_fresh {m : List (String × α)} {k : String} (v : α)
    (h : k ∉ m.map (·.1)) : jsMapSet m k v = m ++ [(k, v)] := by
  induction m with
  | nil => rfl
  | cons kv m ih =>
    obtain ⟨k0, v0⟩ := kv
    unfold jsMapSet
    rw [if_neg (fun hq : k0 = k => h (by simp [hq]))]
    rw [ih (fun hq => h (by simp [hq]))]
    simp

theorem filter_jsMapSet_of_false (P : ImportStatement → Bool)
    {m : List (String × ImportStatement)} {k : String}
    {v : ImportStatement} (hv : P v = false)
    (hold : ∀ kv ∈ m, kv.1 = k → P kv.2 = false) :
    (jsMapSet m k v).filter (fun kv => P kv.2) = m.filter (fun kv => P kv.2) := by
  induction m with
  | nil => simp [jsMapSet, hv]
  | cons kv m ih =>
    obtain ⟨k0, v0⟩ := kv
    unfold jsMapSet
    by_cases hk : k0 = k
    · rw [if_pos hk, List.filter_cons, List.filter_cons]
      rw [if_neg (by simp [hv]), if_neg (by
        simp [hold (k0, v0) (List.mem_cons_self _ _) hk])]
    · rw [if_neg hk, List.filter_cons, List.filter_cons]
      rw [ih (fun kv' hkv' => hold kv' (List.mem_cons_of_mem _ hkv'))]

theorem statementKey_unmergeable_ne_of_mergeable {s w : ImportStatement}
    (hs : isMergeable s = false) (hw : isMergeable w = true) :
    statementKey s ≠ statementKey w := by
  intro h
  rw [statementKey_of_mergeable hw] at h
  exact absurd (statementKey_eq_mergeKeyOf h).1 (by simp [hs])

theorem mergeFold_unmergeable (rest : List ImportStatement) :
    ∀ (processed : List ImportStatement) (m : List (String × ImportStatement)),
      (((processed ++ rest).filter (fun s => !isMergeable s)).map statementKey).Nodup →
      MergeMapInv processed m →
      m.filter (fun kv => !isMergeable kv.2) =
        (processed.filter (fun s => !isMergeable s)).map (fun s => (statementKey s, s)) →
      (rest.foldl mergeStep m).filter (fun kv => !isMergeable kv.2) =
        (((processed ++ rest).filter (fun s => !isMergeable s)).map
          (fun s => (statementKey s, s))) := by
  induction rest with
  | nil =>
    intro processed m _ _ hfil
    simpa using hfil
  | cons s rest ih =>
    intro processed m hnd inv hfil
    obtain ⟨h1, h2, h3⟩ := inv
    have hassoc : processed ++ s :: rest = (processed ++ [s]) ++ rest := by simp
    rw [List.foldl_cons, hassoc]
    by_cases hmg : isMergeable s
    · -- a mergeable statement adds nothing to the unmergeable entries
      refine ih (processed ++ [s]) (mergeStep m s) (by rw [← hassoc]; exact hnd)
        (mergeStep_inv ⟨h1, h2, h3⟩ s) ?_
      have hstep : ∀ v, (jsMapSet m (mergeKey s) v).filter (fun kv => !isMergeable kv.2) =
          m.filter (fun kv => !isMergeable kv.2) → True := fun _ _ => trivial
      have hfilter_new :
          ((processed ++ [s]).filter (fun st => !isMergeable st)).map
            (fun st => (statementKey st, st)) =
          (processed.filter (fun st => !isMergeable st)).map (fun st => (statementKey st, st)) := by
        rw [List.filter_append]
        simp [hmg]
      rw [hfilter_new, ← hfil]
      have hold : ∀ kv ∈ m, kv.1 = mergeKey s → isMergeable kv.2 = true := by
        intro kv hkv hkey
        have := h2 kv hkv
        rw [hkey] at this
        exact (statementKey_eq_mergeKeyOf this).1
      have hparts : s.isSideEffect = false ∧ hasNamespaceImport s = false := by
        unfold isMergeable at hmg
        simp only [Bool.and_eq_true, Bool.not_eq_true'] at hmg
        exact hmg
      have hunfold : mergeStep m s =
          (match jsMapGet m (mergeKey s) with
           | none => jsMapSet m (mergeKey s) s
           | some existing => jsMapSet m (mergeKey s) (mergeTwoStatements existing s)) := by
        unfold mergeStep
        rw [if_neg (by simp [hparts.1]), if_neg (by simp [hparts.2])]
      cases hget : jsMapGet m (mergeKey s) with
      | none =>
        rw [show mergeStep m s = jsMapSet m (mergeKey s) s by rw [hunfold, hget]]
        apply filter_jsMapSet_of_false (fun st => !isMergeable st)
        · simp [hmg]
        · intro kv hkv hk
          simp [hold kv hkv hk]
      | some existing =>
        have hexmg : isMergeable existing = true :=
          hold _ (jsMapGet_mem hget) rfl
        rw [show mergeStep m s = jsMapSet m (mergeKey s) (mergeTwoStatements existing s) by
          rw [hunfold, hget]]
        apply filter_jsMapSet_of_false (fun st => !isMergeable st)
        · simp [isMergeable_mergeTwo hexmg hmg]
        · intro kv hkv hk
          simp [hold kv hkv hk]
    · -- an unmergeable statement is appended under its own fresh key
      have hmg' : isMergeable s = false := by simpa using hmg
      have hkeystep : mergeStep m s = jsMapSet m (statementKey s) s := by
        unfold mergeStep statementKey
        by_cases hse : s.isSideEffect
        · rw [if_pos hse, if_pos hse]
        · have hns : hasNamespaceImport s = true := by
            unfold isMergeable at hmg'
            simp only [Bool.and_eq_false_iff, Bool.not_eq_false] at hmg'
            rcases hmg' with h | h
            · exact absurd (by simpa using h) hse
            · simpa using h
          rw [if_neg hse, if_neg hse, if_pos hns, if_pos hns]
      have hsk_not_processed : statementKey s ∉ processed.map statementKey := by
        intro hmem
        obtain ⟨w, hw, hwk⟩ := List.mem_map.mp hmem
        by_cases hwm : isMergeable w
        · exact statementKey_unmergeable_ne_of_mergeable hmg' hwm hwk.symm
        · have hw' : w ∈ processed.filter (fun st => !isMergeable st) :=
            List.mem_filter.mpr ⟨hw, by simpa using hwm⟩
          have hs' : statementKey s ∈
              ((s :: rest).filter (fun st => !isMergeable st)).map statementKey := by
            have : s ∈ (s :: rest).filter (fun st => !isMergeable st) :=
              List.mem_filter.mpr ⟨List.mem_cons_self _ _, by simpa using hmg⟩
            exact List.mem_map.mpr ⟨s, this, rfl⟩
          rw [List.filter_append, List.map_append] at hnd
          have hdisj := (List.nodup_append.mp hnd).2.2
          exact hdisj (List.mem_map.mpr ⟨w, hw', hwk⟩) hs'
      have hfresh : statementKey s ∉ m.map (·.1) := by
        rw [h1]
        intro hmem
        exact hsk_not_processed (mem_firstDedup.mp hmem)
      refine ih (processed ++ [s]) (mergeStep m s) (by rw [← hassoc]; exact hnd)
        (mergeStep_inv ⟨h1, h2, h3⟩ s) ?_
      rw [hkeystep, jsMapSet_fresh _ hfresh, List.filter_append, List.filter_append]
      rw [hfil]
      simp [hmg']

theorem mergeImports_keys_eq (l : List ImportStatement) :
    (mergeImports l).map statementKey = firstDedup (l.map statementKey) := by
  obtain ⟨h1, h2, _⟩ := mergeImports_inv l
  unfold mergeImports
  rw [List.map_map, ← h1]
  exact List.map_congr_left (fun kv hkv => h2 kv hkv)

theorem mergeImports_unmergeable_eq (l : List ImportStatement)
    (hnd : ((l.filter (fun s => !isMergeable s)).map statementKey).Nodup) :
    (mergeImports l).filter (fun s => !isMergeable s) =
      l.filter (fun s => !isMergeable s) := by
  have h0 : MergeMapInv [] ([] : List (String × ImportStatement)) := by
    refine ⟨rfl, by simp, ?_⟩
    intro p e
    simp [jsMapGet, combineAllOpt]
  have h := mergeFold_unmergeable l [] [] (by simpa using hnd) h0 (by simp)
  unfold mergeImports
  rw [List.filter_map, show ((fun s => !isMergeable s) ∘ (fun x => x.2)) =
    (fun kv : String × ImportStatement => !isMergeable kv.2) from rfl]
  rw [show (l.foldl mergeStep [] : List (String × ImportStatement)) =
    List.foldl mergeStep [] l from rfl]
  rw [show List.filter (fun kv : String × ImportStatement => !isMergeable kv.2)
      (List.foldl mergeStep [] l) =
    List.map (fun s => (statementKey s, s)) (List.filter (fun s => !isMergeable s) l) by
      simpa using h]
  rw [List.map_map]
  rw [show ((fun x : String × ImportStatement => x.2) ∘ fun s => (statementKey s, s)) = id
    from rfl, List.map_id]

theorem mergeImports_class_unique (l : List ImportStatement) (p : String) (e : Bool)
    (hdup : ∀ s ∈ l, (s.importContents.map contentKey).Nodup)
    (hne : l.filter (mergeableWith p e) ≠ []) :
    ((mergeImports l).filter (mergeableWith p e)).length = 1 ∧
    ∀ merged ∈ (mergeImports l).filter (mergeableWith p e),
      merged.importContents.map contentKey =
        firstDedup (((l.filter (mergeableWith p e)).flatMap (·.importContents)).map
          contentKey) := by
  cases hfil : l.filter (mergeableWith p e) with
  | nil => exact absurd hfil hne
  | cons i rest =>
    have hclass := mergeImports_mergeable_class l p e
    rw [hfil] at hclass
    simp only [combineAllOpt, Option.toList_some] at hclass
    rw [hclass]
    refine ⟨rfl, ?_⟩
    intro merged hm
    have : merged = combineFold i rest := by simpa using hm
    rw [this]
    have hi : i ∈ l := (List.mem_filter.mp (hfil ▸ List.mem_cons_self i rest)).1
    exact combineFold_content_keys (hdup i hi)

/-! ## Sorter lemmas: what the grouping and sorting stages preserve -/

theorem groupFold_mem (getG : ImportStatement → String) :
    ∀ (imports : List ImportStatement) (m : List (String × List ImportStatement)),
      ∀ kv ∈ imports.foldl (fun m statement =>
          jsMapSet m (getG statement)
            ((jsMapGet m (getG statement)).getD [] ++ [statement])) m,
        ∀ s ∈ kv.2, (∃ kv0 ∈ m, s ∈ kv0.2) ∨ s ∈ imports := by
  intro imports
  induction imports with
  | nil =>
    intro m kv hkv s hs
    exact Or.inl ⟨kv, hkv, hs⟩
  | cons st rest ih =>
    intro m kv hkv s hs
    rw [List.foldl_cons] at hkv
    rcases ih _ kv hkv s hs with ⟨kv0, hkv0, hskv0⟩ | hsr
    · rcases mem_jsMapSet _ _ _ kv0 hkv0 with h | h
      · rw [h] at hskv0
        rcases List.mem_append.mp hskv0 with h' | h'
        · cases hget : jsMapGet m (getG st) with
          | none =>
            rw [hget] at h'
            simp at h'
          | some prev =>
            rw [hget] at h'
            exact Or.inl ⟨(getG st, prev), jsMapGet_mem hget, h'⟩
        · have : s = st := by simpa using h'
          exact Or.inr (this ▸ List.mem_cons_self _ _)
      · exact Or.inl ⟨kv0, h, hskv0⟩
    · exact Or.inr (List.mem_cons_of_mem _ hsr)

theorem groupImports_statement_mem (imports : List ImportStatement) (cfg : PluginConfig) :
    ∀ g ∈ groupImports imports cfg, ∀ s ∈ g.importStatements, s ∈ imports := by
  intro g hg s hs
  unfold groupImports at hg
  obtain ⟨kv, hkv, hgkv⟩ := List.mem_map.mp hg
  have hmem := groupFold_mem (mergeConfig cfg).getGroup imports [] kv hkv s
  rw [← hgkv] at hs
  rcases hmem hs with ⟨kv0, hkv0, _⟩ | h
  · simp at hkv0
  · exact h

theorem flattenSortedGroups_isSideEffect (imports : List ImportStatement)
    (cfg : PluginConfig) :
    ∀ x ∈ flattenSortedGroups imports cfg, ∃ s ∈ imports, x.isSideEffect = s.isSideEffect := by
  intro x hx
  unfold flattenSortedGroups at hx
  obtain ⟨g, hg, hxg⟩ := List.mem_flatMap.mp hx
  obtain ⟨st, hst, hxst⟩ := List.mem_map.mp hxg
  have hg' : g ∈ groupImports imports cfg := by
    have := mem_jsSort.mp hg
    exact this
  have hst' : st ∈ g.importStatements := by
    have := mem_jsSort.mp hst
    exact this
  exact ⟨st, groupImports_statement_mem imports cfg g hg' st hst', by rw [← hxst]⟩

theorem buildChunksAux_flatten :
    ∀ (l cur : List ImportStatement), (buildChunksAux l cur).flatten = cur ++ l := by
  intro l
  induction l with
  | nil =>
    intro cur
    by_cases h : cur.length > 0
    · simp [buildChunksAux, h]
    · simp only [buildChunksAux, h, if_neg]
      simp at h
      simp [h]
  | cons st rest ih =>
    intro cur
    unfold buildChunksAux
    by_cases hse : st.isSideEffect
    · rw [if_pos hse]
      by_cases h : cur.length > 0
      · rw [if_pos h]
        simp [ih]
      · rw [if_neg h]
        simp only [List.length_eq_zero] at *
        simp at h
        simp [h, ih]
    · rw [if_neg hse, ih]
      simp

theorem buildChunksAux_shape :
    ∀ (l cur : List ImportStatement), (∀ s ∈ cur, s.isSideEffect = false) →
      ∀ chunk ∈ buildChunksAux l cur,
        (∃ s, chunk = [s] ∧ s.isSideEffect = true) ∨
          ∀ s ∈ chunk, s.isSideEffect = false := by
  intro l
  induction l with
  | nil =>
    intro cur hcur chunk hchunk
    by_cases h : cur.length > 0
    · simp only [buildChunksAux, h, if_pos, List.mem_singleton] at hchunk
      exact Or.inr (hchunk ▸ hcur)
    · simp [buildChunksAux, h] at hchunk
  | cons st rest ih =>
    intro cur hcur chunk hchunk
    unfold buildChunksAux at hchunk
    by_cases hse : st.isSideEffect
    · rw [if_pos hse] at hchunk
      rcases List.mem_append.mp hchunk with h | h
      · rcases List.mem_append.mp h with h' | h'
        · by_cases hc : cur.length > 0
          · rw [if_pos hc] at h'
            have : chunk = cur := by simpa using h'
            exact Or.inr (this ▸ hcur)
          · rw [if_neg hc] at h'
            simp at h'
        · have : chunk = [st] := by simpa using h'
          exact Or.inl ⟨st, this, hse⟩
      · exact ih [] (by simp) chunk h
    · rw [if_neg hse] at hchunk
      refine ih (cur ++ [st]) ?_ chunk hchunk
      intro s hs
      rcases List.mem_append.mp hs with h | h
      · exact hcur s h
      · have : s = st := by simpa using h
        simpa [this] using hse

theorem processChunk_filter_sideEffect (config : MergedConfig)
    (chunk : List ImportStatement)
    (hshape : (∃ s, chunk = [s] ∧ s.isSideEffect = true) ∨
      ∀ s ∈ chunk, s.isSideEffect = false) :
    (processChunk config chunk).filter (·.isSideEffect) =
      chunk.filter (·.isSideEffect) := by
  have hsorted : (∀ s ∈ chunk, s.isSideEffect = false) →
      (flattenSortedGroups chunk config.toPluginConfig).filter (·.isSideEffect) = [] := by
    intro hall
    rw [List.filter_eq_nil_iff]
    intro x hx
    obtain ⟨s, hs, hxs⟩ := flattenSortedGroups_isSideEffect chunk config.toPluginConfig x hx
    simp [hxs, hall s hs]
  rcases hshape with ⟨s, hchunk, hse⟩ | hall
  · subst hchunk
    show (if s.isSideEffect = true then [s]
      else flattenSortedGroups [s] config.toPluginConfig).filter (·.isSideEffect) =
      List.filter (·.isSideEffect) [s]
    rw [if_pos hse]
  · have hchunkfil : chunk.filter (·.isSideEffect) = [] := by
      rw [List.filter_eq_nil_iff]
      intro x hx
      simp [hall x hx]
    cases chunk with
    | nil => rfl
    | cons c1 ctail =>
      cases ctail with
      | nil =>
        show (if c1.isSideEffect = true then [c1]
          else flattenSortedGroups [c1] config.toPluginConfig).filter (·.isSideEffect) =
          List.filter (·.isSideEffect) [c1]
        rw [if_neg (by simp [hall c1 (by simp)])]
        rw [hsorted hall, hchunkfil]
      | cons c2 ctail2 =>
        show (flattenSortedGroups (c1 :: c2 :: ctail2)
            config.toPluginConfig).filter (·.isSideEffect) =
          List.filter (·.isSideEffect) (c1 :: c2 :: ctail2)
        rw [hsorted hall, hchunkfil]

theorem flatMap_congr_fun {α β : Type} {l : List α} {f g : α → List β}
    (h : ∀ a ∈ l, f a = g a) : l.flatMap f = l.flatMap g := by
  induction l with
  | nil => rfl
  | cons a l ih =>
    rw [List.flatMap_cons, List.flatMap_cons, h a (by simp),
      ih (fun a' ha' => h a' (List.mem_cons_of_mem _ ha'))]

theorem sortImportsWithSideEffectSeparators_filter (imports : List ImportStatement)
    (config : MergedConfig) :
    (sortImportsWithSideEffectSeparators imports config).filter (·.isSideEffect) =
      imports.filter (·.isSideEffect) := by
  unfold sortImportsWithSideEffectSeparators
  rw [List.filter_flatMap]
  unfold buildChunks
  rw [flatMap_congr_fun (fun chunk hchunk =>
    processChunk_filter_sideEffect config chunk
      (buildChunksAux_shape imports [] (by simp) chunk hchunk))]
  rw [show (buildChunksAux imports []).flatMap
      (fun c : List ImportStatement => c.filter (·.isSideEffect)) =
    ((buildChunksAux imports []).map (List.filter (·.isSideEffect))).flatten from
      List.flatMap_def _ _]
  rw [← List.filter_flatten]
  rw [buildChunksAux_flatten]
  simp

theorem sortImports_filter_sideEffect (imports : List ImportStatement)
    (cfg : PluginConfig) (h : (mergeConfig cfg).sortSideEffect = false) :
    (sortImports imports cfg).filter (·.isSideEffect) =
      imports.filter (·.isSideEffect) := by
  show (if !(mergeConfig cfg).sortSideEffect then
      sortImportsWithSideEffectSeparators imports (mergeConfig cfg)
    else flattenSortedGroups imports (mergeConfig cfg).toPluginConfig).filter
      (·.isSideEffect) = imports.filter (·.isSideEffect)
  rw [h]
  simp only [Bool.not_false, if_pos]
  exact sortImportsWithSideEffectSeparators_filter imports (mergeConfig cfg)

theorem groupFold_const_default (l : List ImportStatement) :
    ∀ cur : List ImportStatement,
      l.foldl (fun m statement =>
        jsMapSet m (defaultGetGroup statement)
          ((jsMapGet m (defaultGetGroup statement)).getD [] ++ [statement]))
        [("default", cur)] = [("default", cur ++ l)] := by
  induction l with
  | nil => intro cur; simp
  | cons s rest ih =>
    intro cur
    rw [List.foldl_cons]
    have hstep : jsMapSet [("default", cur)] (defaultGetGroup s)
        ((jsMapGet [("default", cur)] (defaultGetGroup s)).getD [] ++ [s]) =
        [("default", cur ++ [s])] := by
      simp [defaultGetGroup, jsMapGet, jsMapSet]
    rw [hstep, ih (cur ++ [s])]
    simp

theorem groupImports_default (l : List ImportStatement) (cfg : PluginConfig)
    (hg : cfg.getGroup = none) (hne : l ≠ []) :
    groupImports l cfg =
      [{ name := "default", isSideEffect := l.all (·.isSideEffect),
         importStatements := l }] := by
  have hgd : (mergeConfig cfg).getGroup = defaultGetGroup := by
    show cfg.getGroup.getD defaultGetGroup = defaultGetGroup
    rw [hg]
    rfl
  show List.map (fun p : String × List ImportStatement =>
      Group.mk p.1 (p.2.all (·.isSideEffect)) p.2)
      (l.foldl (fun m statement =>
        jsMapSet m ((mergeConfig cfg).getGroup statement)
          ((jsMapGet m ((mergeConfig cfg).getGroup statement)).getD [] ++ [statement])) []) =
    [{ name := "default", isSideEffect := l.all (·.isSideEffect), importStatements := l }]
  rw [hgd]
  cases l with
  | nil => exact absurd rfl hne
  | cons s rest =>
    rw [List.foldl_cons]
    have hstep : jsMapSet [] (defaultGetGroup s)
        ((jsMapGet ([] : List (String × List ImportStatement))
          (defaultGetGroup s)).getD [] ++ [s]) = [("default", [s])] := by
      simp [defaultGetGroup, jsMapGet, jsMapSet]
    rw [hstep, groupFold_const_default rest [s]]
    simp

theorem defaultSortImportStatement_priority (a b : ImportStatement)
    (h : getImportTypePriority (getImportType a.path) <
      getImportTypePriority (getImportType b.path)) :
    defaultSortImportStatement a b < 0 := by
  unfold defaultSortImportStatement
  rw [if_pos (ne_of_lt h)]
  omega

/-! ## Analyzer lemmas -/

theorem filterUnusedImports_passthrough (s : ImportStatement) (used : List String)
    (h : (s.isSideEffect || s.isExport) = true) : filterUnusedImports s used = s := by
  unfold filterUnusedImports
  rw [if_pos h]

theorem filterUnusedImports_isExport (s : ImportStatement) (used : List String) :
    (filterUnusedImports s used).isExport = s.isExport := by
  unfold filterUnusedImports
  by_cases h : (s.isSideEffect || s.isExport) = true
  · rw [if_pos h]
  · rw [if_neg h]

theorem filterUnusedImports_isSideEffect_of_binding {s : ImportStatement}
    (used : List String) (h : (s.isSideEffect || s.isExport) = false) :
    (filterUnusedImports s used).isSideEffect =
      ((filterUnusedImports s used).importContents.length == 0) := by
  unfold filterUnusedImports
  rw [if_neg (by simp [h])]

theorem removeUnusedLoop_filter (used : List String) (l : List ImportStatement) :
    (removeUnusedLoop used l).filter (fun s => s.isSideEffect || s.isExport) =
      l.filter (fun s => s.isSideEffect || s.isExport) := by
  induction l with
  | nil => rfl
  | cons st rest ih =>
    unfold removeUnusedLoop
    by_cases hp : (st.isSideEffect || st.isExport) = true
    · rw [filterUnusedImports_passthrough st used hp]
      have hdrop : (!st.isSideEffect && st.isSideEffect &&
          st.importContents.length == 0) = false := by
        cases h : st.isSideEffect <;> simp [h]
      rw [if_neg (by simp [hdrop])]
      rw [List.filter_cons, if_pos hp, List.filter_cons, if_pos hp, ih]
    · have hp' : (st.isSideEffect || st.isExport) = false := by simpa using hp
      have hse : st.isSideEffect = false := (Bool.or_eq_false_iff.mp hp').1
      have hex : st.isExport = false := (Bool.or_eq_false_iff.mp hp').2
      by_cases hdrop : (!st.isSideEffect && (filterUnusedImports st used).isSideEffect &&
          (filterUnusedImports st used).importContents.length == 0) = true
      · rw [if_pos hdrop, List.filter_cons, if_neg (by simp [hp']), ih]
      · have hlen : ((filterUnusedImports st used).importContents.length == 0) = false := by
          by_contra hq
          apply hdrop
          simp only [Bool.not_eq_false] at hq
          rw [filterUnusedImports_isSideEffect_of_binding used hp']
          simp [hse, hq]
        have hkeepP : ((filterUnusedImports st used).isSideEffect ||
            (filterUnusedImports st used).isExport) = false := by
          rw [filterUnusedImports_isExport,
            filterUnusedImports_isSideEffect_of_binding used hp', hlen, hex]
          rfl
        rw [if_neg hdrop, List.filter_cons, if_neg (by simp [hkeepP]),
          List.filter_cons, if_neg (by simp [hp']), ih]

/-! ## Formatter lemmas -/

/-- The default/namespace clause parts, in content order. -/
def partsOf (contents : List ImportContent) : List String :=
  contents.filterMap (fun content =>
    if content.name == "default" then some (content.alias.getD "default")
    else if content.name == "*" then some ("* as " ++ content.alias.getD "namespace")
    else none)

theorem buildParts_no_comments_aux (contents : List ImportContent) :
    ∀ (a b c : List String),
      contents.foldl (buildPartsStep false) (a, b, c) =
        (a ++ partsOf contents, b ++ (namedImportsOf contents).map namedItemString, c) := by
  induction contents with
  | nil =>
    intro a b c
    simp [partsOf, namedImportsOf]
  | cons content rest ih =>
    intro a b c
    rw [List.foldl_cons]
    by_cases h1 : content.name == "default"
    · have hstep : buildPartsStep false (a, b, c) content =
          (a ++ [content.alias.getD "default"], b, c) := by
        simp only [buildPartsStep]
        rw [if_pos h1]
      have hparts : partsOf (content :: rest) =
          content.alias.getD "default" :: partsOf rest := by
        unfold partsOf
        rw [List.filterMap_cons, if_pos h1]
      have hnamed : namedImportsOf (content :: rest) = namedImportsOf rest := by
        unfold namedImportsOf
        rw [List.filter_cons, if_neg (by simp_all)]
      rw [hstep, ih, hparts, hnamed]
      simp
    · by_cases h2 : content.name == "*"
      · have hstep : buildPartsStep false (a, b, c) content =
            (a ++ ["* as " ++ content.alias.getD "namespace"], b, c) := by
          simp only [buildPartsStep]
          rw [if_neg h1, if_pos h2]
        have hparts : partsOf (content :: rest) =
            ("* as " ++ content.alias.getD "namespace") :: partsOf rest := by
          unfold partsOf
          rw [List.filterMap_cons, if_neg h1, if_pos h2]
        have hnamed : namedImportsOf (content :: rest) = namedImportsOf rest := by
          unfold namedImportsOf
          rw [List.filter_cons, if_neg (by simp_all)]
        rw [hstep, ih, hparts, hnamed]
        simp
      · have hstep : buildPartsStep false (a, b, c) content =
            (a, b ++ [namedItemString content], c) := by
          simp only [buildPartsStep]
          rw [if_neg h1, if_neg h2]
          simp
        have hparts : partsOf (content :: rest) = partsOf rest := by
          unfold partsOf
          rw [List.filterMap_cons, if_neg h1, if_neg h2]
        have hnamed : namedImportsOf (content :: rest) =
            content :: namedImportsOf rest := by
          unfold namedImportsOf
          rw [List.filter_cons, if_pos (by simp_all)]
        rw [hstep, ih, hparts, hnamed]
        simp

theorem buildParts_no_comments (contents : List ImportContent) :
    buildParts false contents =
      (partsOf contents, (namedImportsOf contents).map namedItemString, []) := by
  unfold buildParts
  rw [buildParts_no_comments_aux contents [] [] []]
  simp

theorem replaceTypePrefix_typeItem (t : String) :
    replaceTypePrefix ("type " ++ t) = t := by
  unfold replaceTypePrefix
  rw [if_pos (by
    rw [String.data_append]
    exact List.isPrefixOf_iff_prefix.mpr (List.prefix_append _ _))]
  rw [String.data_append]
  show (⟨List.drop ("type ".data.length) ("type ".data ++ t.data)⟩ : String) = t
  rw [List.drop_left]

/-- The multi-line rendering of one named specifier, as the content loop
builds it when some named specifier carries comments: the leading comment
lines, then the item itself (rendered by `namedItemString`, so the per-item
`type ` prefix is kept) with its trailing comments appended. -/
def mlNamedItem (content : ImportContent) : String :=
  let itemLines :=
    (if commentsNonempty content.leadingComments then content.leadingComments.getD [] else [])
  let itemLine :=
    if commentsNonempty content.trailingComments then
      namedItemString content ++ " " ++ joinWith " " (content.trailingComments.getD [])
    else namedItemString content
  joinWith "\n    " (itemLines ++ [itemLine])

theorem buildParts_comments_aux (contents : List ImportContent) :
    ∀ (a b c : List String),
      contents.foldl (buildPartsStep true) (a, b, c) =
        (a ++ partsOf contents, b, c ++ (namedImportsOf contents).map mlNamedItem) := by
  induction contents with
  | nil =>
    intro a b c
    simp [partsOf, namedImportsOf]
  | cons content rest ih =>
    intro a b c
    rw [List.foldl_cons]
    by_cases h1 : content.name == "default"
    · have hstep : buildPartsStep true (a, b, c) content =
          (a ++ [content.alias.getD "default"], b, c) := by
        simp only [buildPartsStep]
        rw [if_pos h1]
      have hparts : partsOf (content :: rest) =
          content.alias.getD "default" :: partsOf rest := by
        unfold partsOf
        rw [List.filterMap_cons, if_pos h1]
      have hnamed : namedImportsOf (content :: rest) = namedImportsOf rest := by
        unfold namedImportsOf
        rw [List.filter_cons, if_neg (by simp_all)]
      rw [hstep, ih, hparts, hnamed]
      simp
    · by_cases h2 : content.name == "*"
      · have hstep : buildPartsStep true (a, b, c) content =
            (a ++ ["* as " ++ content.alias.getD "namespace"], b, c) := by
          simp only [buildPartsStep]
          rw [if_neg h1, if_pos h2]
        have hparts : partsOf (content :: rest) =
            ("* as " ++ content.alias.getD "namespace") :: partsOf rest := by
          unfold partsOf
          rw [List.filterMap_cons, if_neg h1, if_pos h2]
        have hnamed : namedImportsOf (content :: rest) = namedImportsOf rest := by
          unfold namedImportsOf
          rw [List.filter_cons, if_neg (by simp_all)]
        rw [hstep, ih, hparts, hnamed]
        simp
      · have hstep : buildPartsStep true (a, b, c) content =
            (a, b, c ++ [mlNamedItem content]) := by
          simp only [buildPartsStep, mlNamedItem]
          rw [if_neg h1, if_neg h2]
          simp
        have hparts : partsOf (content :: rest) = partsOf rest := by
          unfold partsOf
          rw [List.filterMap_cons, if_neg h1, if_neg h2]
        have hnamed : namedImportsOf (content :: rest) =
            content :: namedImportsOf rest := by
          unfold namedImportsOf
          rw [List.filter_cons, if_pos (by simp_all)]
        rw [hstep, ih, hparts, hnamed]
        simp

theorem buildParts_comments (contents : List ImportContent) :
    buildParts true contents =
      (partsOf contents, [], (namedImportsOf contents).map mlNamedItem) := by
  unfold buildParts
  rw [buildParts_comments_aux contents [] [] []]
  simp

/-- When some named specifier carries comments there is at least one named
specifier, so the content loop produces a nonempty multi-line item list and
the formatter takes the multi-line branch. -/
theorem namedImports_pos_of_comments {contents : List ImportContent}
    (h : hasNamedImportComments contents = true) :
    0 < (namedImportsOf contents).length := by
  unfold hasNamedImportComments at h
  obtain ⟨c, hc, hp⟩ := List.any_eq_true.mp h
  have hmem : c ∈ namedImportsOf contents := by
    unfold namedImportsOf
    refine List.mem_filter.mpr ⟨hc, ?_⟩
    simp only [Bool.and_eq_true] at hp ⊢
    tauto
  exact List.length_pos.mpr (List.ne_nil_of_mem hmem)

/-- Per-item rendering as the amended claim states it for the single-line
layout: the `type ` prefix appears exactly when the specifier is type-marked
and the clause is not promoted to a whole-clause `type`. -/
def specNamedItem (promoted : Bool) (content : ImportContent) : String :=
  let typePrefix := if content.type == "type" && !promoted then "type " else ""
  match content.alias with
  | some a => typePrefix ++ content.name ++ " as " ++ a
  | none => typePrefix ++ content.name

/-- The rendering of a non-side-effect statement, organised the way the
amended C7 claim reads.  Single-line layout (no named specifier carries
comments): the clause is promoted (whole-clause `type `, no per-item
prefixes) exactly when every named specifier is type-only and no
default/namespace specifier is present; otherwise each type-marked named
specifier carries its own `type ` prefix.  Multi-line layout (some named
specifier carries comments): the clause keyword is promoted under the same
condition, but every named item is rendered by `namedItemString` via
`mlNamedItem`, so the per-item `type ` prefixes are kept even under a
promoted keyword. -/
def formatStatementAmended (statement : ImportStatement) : String :=
  let lines : List String :=
    if commentsNonempty statement.leadingComments then statement.leadingComments.getD [] else []
  let promoted := allNamedImportsAreTypes statement.importContents &&
    !hasDefaultOrNamespace statement.importContents
  let typeKeyword := if promoted then "type " else ""
  let parts := partsOf statement.importContents
  let lines :=
    if hasNamedImportComments statement.importContents then
      let keyword := if statement.isExport then "export" else "import"
      let mlParts := (namedImportsOf statement.importContents).map mlNamedItem
      let defaultPart := if parts.length > 0 then joinWith ", " parts ++ ", " else ""
      lines ++ [keyword ++ " " ++ typeKeyword ++ defaultPart ++ "\x7b",
        "    " ++ joinWith ",\n    " mlParts ++ ",",
        "\x7d from \"" ++ statement.path ++ "\""]
    else
      let namedParts := (namedImportsOf statement.importContents).map (specNamedItem promoted)
      let parts :=
        if namedParts.length > 0 then parts ++ ["\x7b " ++ joinWith ", " namedParts ++ " \x7d"]
        else parts
      let importClause := joinWith ", " parts
      let importLine :=
        if statement.isExport then
          "export " ++ typeKeyword ++ importClause ++ " from \"" ++ statement.path ++ "\""
        else "import " ++ typeKeyword ++ importClause ++ " from \"" ++ statement.path ++ "\""
      let importLine :=
        if commentsNonempty statement.trailingComments then
          importLine ++ " " ++ joinWith " " (statement.trailingComments.getD [])
        else importLine
      lines ++ [importLine]
  let lines :=
    if commentsNonempty statement.removedTrailingComments then
      lines ++ [""] ++ statement.removedTrailingComments.getD []
    else lines
  joinWith "\n" lines

theorem specNamedItem_false (c : ImportContent) :
    specNamedItem false c = namedItemString c := by
  unfold specNamedItem namedItemString
  cases c.alias <;> simp

theorem specNamedItem_true_of_type (c : ImportContent) (h : (c.type == "type") = true) :
    replaceTypePrefix (namedItemString c) = specNamedItem true c := by
  unfold specNamedItem namedItemString
  rw [h]
  simp only [Bool.not_true, Bool.and_false, Bool.false_eq_true, if_false, if_pos]
  cases c.alias with
  | none =>
    show replaceTypePrefix ("type " ++ c.name) = "" ++ c.name
    rw [replaceTypePrefix_typeItem]
    simp
  | some a =>
    show replaceTypePrefix ("type " ++ c.name ++ " as " ++ a) = "" ++ c.name ++ " as " ++ a
    rw [String.append_assoc, String.append_assoc, replaceTypePrefix_typeItem]
    simp [String.append_assoc]

theorem allNamed_types_mem {contents : List ImportContent}
    (h : allNamedImportsAreTypes contents = true) :
    ∀ c ∈ namedImportsOf contents, (c.type == "type") = true := by
  unfold allNamedImportsAreTypes at h
  exact fun c hc => by simpa using List.all_eq_true.mp h c hc

theorem formatImportStatement_amended_core (s : ImportStatement)
    (hse : s.isSideEffect = false) :
    formatImportStatement s = formatStatementAmended s := by
  unfold formatImportStatement formatStatementAmended
  rw [hse]
  by_cases hnc : hasNamedImportComments s.importContents = true
  · rw [hnc]
    have hlen := namedImports_pos_of_comments hnc
    simp only [Bool.false_eq_true, if_false, eq_self_iff_true, if_true, buildParts_comments,
      Bool.true_and, List.length_map, gt_iff_lt, decide_eq_true_eq]
    rw [if_pos hlen]
  · have hnc' : hasNamedImportComments s.importContents = false := by simpa using hnc
    rw [hnc']
    simp only [Bool.false_eq_true, if_false, Bool.false_and, buildParts_no_comments,
      List.length_nil, gt_iff_lt, lt_self_iff_false]
    by_cases hpromo : (allNamedImportsAreTypes s.importContents &&
        !hasDefaultOrNamespace s.importContents) = true
    · rw [hpromo]
      simp only [if_pos, List.map_map, Function.comp_def, List.length_map]
      rw [List.map_congr_left (fun c hc =>
        (specNamedItem_true_of_type c (allNamed_types_mem (by
          have := hpromo
          simp only [Bool.and_eq_true] at this
          exact this.1) c hc)))]
    · have hpromo' : (allNamedImportsAreTypes s.importContents &&
          !hasDefaultOrNamespace s.importContents) = false := by simpa using hpromo
      rw [hpromo']
      simp only [Bool.false_eq_true, if_false, List.length_map]
      rw [List.map_congr_left (fun c hc => (specNamedItem_false c).symm)]

/-! ## Parser and orchestrator lemmas -/

/-- The two "binds nothing" node shapes the spec names: a bare import
declaration (no specifiers) and an `export * from` declaration. -/
def isBareImportOrExportAll : BabelNode → Bool
  | .importDeclaration _ _ specifiers _ _ _ _ _ => specifiers.isEmpty
  | .exportNamedDeclaration _ _ _ _ _ _ _ _ => false
  | .exportAllDeclaration _ _ _ _ _ _ => true

theorem parseImportSpecifiers_length (specifiers : List BabelImportSpecifier)
    (k : Bool) : (parseImportSpecifiers specifiers k).length = specifiers.length := by
  unfold parseImportSpecifiers
  rw [List.length_map]

/-- The start-offset of the block used by the splice. -/
def blockStart : List ImportStatement → Nat
  | [] => 0
  | firstImport :: _ => firstImport.start.getD 0

/-- The end-offset of the block used by the splice. -/
def blockEnd (text : String) : List ImportStatement → Nat
  | [] => text.length
  | firstImport :: restImports =>
    (((firstImport :: restImports).getLast (by simp)).«end»).getD text.length

/-- The newline separator the splice inserts after the formatted block. -/
def spliceSeparator (text : String) (imports : List ImportStatement) : String :=
  let afterImports := jsSliceFrom text (blockEnd text imports)
  if afterImports != "" && !strStartsWith afterImports "\n" then "\n\n" else "\n"

/-- The re-serialized import block produced by the pipeline's middle stages
(unused-removal, sort, merge, format). -/
def formattedBlock (parseFn : String → List ImportStatement)
    (traverseFn : String → TraversalOutcome) (config : PluginConfig)
    (text : String) : String :=
  match parseFn text with
  | [] => ""
  | firstImport :: restImports =>
    let imports := firstImport :: restImports
    let lastImport := (firstImport :: restImports).getLast (by simp)
    let processedImports :=
      if config.removeUnusedImports.getD false then
        let codeAfterImports := jsSliceFrom text (lastImport.«end».getD 0)
        removeUnusedImportsFromStatements imports (traverseFn codeAfterImports)
      else imports
    let sortedImports := sortImports processedImports config
    let mergedImports := mergeImports sortedImports
    match config.getGroup with
    | some _ =>
      let groups := groupImports mergedImports config
      let sortedGroups := sortGroups groups config
      formatGroups sortedGroups config
    | none => formatImportStatements mergedImports

theorem preprocessImports_splice (parseFn : String → List ImportStatement)
    (traverseFn : String → TraversalOutcome) (config : PluginConfig)
    (text : String) (h : parseFn text ≠ []) :
    preprocessImports parseFn traverseFn config text =
      jsSliceRange text 0 (blockStart (parseFn text)) ++
      formattedBlock parseFn traverseFn config text ++
      spliceSeparator text (parseFn text) ++
      jsSliceFrom text (blockEnd text (parseFn text)) := by
  unfold preprocessImports formattedBlock blockStart blockEnd spliceSeparator
  cases hp : parseFn text with
  | nil => exact absurd hp h
  | cons firstImport restImports => rfl

theorem parseImportNode_side_effect_core (node : BabelNode)
    (comments : List BabelComment) (usedComments : List Nat) (code : String)
    (isFirstImport : Bool) :
    ((parseImportNode node comments usedComments code isFirstImport).1.isSideEffect =
      isBareImportOrExportAll node) ∧
    (isBareImportOrExportAll node = true →
      (parseImportNode node comments usedComments code isFirstImport).1.importContents = []) := by
  cases node with
  | importDeclaration src k specs lc tc st en loc =>
    constructor
    · show ((parseImportSpecifiers specs k).length == 0) = specs.isEmpty
      rw [parseImportSpecifiers_length]
      cases specs <;> simp
    · intro hb
      have hspecs : specs = [] := by
        cases specs with
        | nil => rfl
        | cons sp sps => simp [isBareImportOrExportAll] at hb
      subst hspecs
      show parseImportSpecifiers [] k = []
      rfl
  | exportNamedDeclaration src k specs lc tc st en loc =>
    constructor
    · rfl
    · intro hb
      simp [isBareImportOrExportAll] at hb
  | exportAllDeclaration src lc tc st en loc =>
    exact ⟨rfl, fun _ => rfl⟩

/-! ## Concrete fixtures for the claim evaluations -/

/-- `import { type A, b } from "x"`: mixed named set, no default/namespace. -/
def exMixedStatement : ImportStatement :=
  { path := "x", importContents := [{ name := "A", type := "type" }, { name := "b" }] }

/-- `import { type FC, type PropsWithChildren, type ReactNode } from "react"`
with its contents already in sorted order. -/
def exPromoStatement : ImportStatement :=
  { path := "react", importContents :=
      [{ name := "FC", type := "type" }, { name := "PropsWithChildren", type := "type" },
       { name := "ReactNode", type := "type" }] }

/-- An all-type named set with no default/namespace specifier in which one
specifier carries a trailing comment, so the multi-line layout is used. -/
def exMLPromoStatement : ImportStatement :=
  { path := "x", importContents :=
      [{ name := "A", type := "type", trailingComments := some ["// c"] },
       { name := "B", type := "type" }] }

/-- A configuration that groups by module path and leaves side-effect
sorting off. -/
def cfgByPath : PluginConfig :=
  { getGroup := some (fun s => s.path), sortSideEffect := some false }

/-- `import { a } from "x"`. -/
def exBindingImport : ImportStatement :=
  { path := "x", importContents := [{ name := "a" }] }

/-- An import from a relative path. -/
def exRelativeImport : ImportStatement := { path := "./a" }

/-- A side-effect import of `"x"` at offset 0. -/
def exSideA : ImportStatement := { path := "x", isSideEffect := true, start := some 0 }

/-- A second side-effect import of `"x"` at the same offset, distinguished by
a trailing comment. -/
def exSideB : ImportStatement :=
  { path := "x", isSideEffect := true, start := some 0,
    trailingComments := some ["// keep"] }

/-- `import { a } from "x"` at offset 0. -/
def exMergeA : ImportStatement :=
  { path := "x", importContents := [{ name := "a" }], start := some 0 }

/-- `import { b } from "x"` at offset 20. -/
def exMergeB : ImportStatement :=
  { path := "x", importContents := [{ name := "b" }], start := some 20 }

/-! ## The claims -/

/-- C1: the claim says the whole transform is idempotent
(`transform(transform(s, c), c) == transform(s, c)`).  The code violates
this: on `import "x"` the splice appends a `"\n"` separator on every run, so
the first output is `import "x"\n` and re-running on that output yields
`import "x"\n\n`.  This theorem evaluates the embedded transform at that
failing input and exhibits the divergence. -/
theorem C1_transform_not_idempotent :
    preprocessImports miniParse noTraverse {} "import \"x\"" = "import \"x\"\n" ∧
    preprocessImports miniParse noTraverse {} "import \"x\"\n" = "import \"x\"\n\n" ∧
    preprocessImports miniParse noTraverse {}
        (preprocessImports miniParse noTraverse {} "import \"x\"") ≠
      preprocessImports miniParse noTraverse {} "import \"x\"" :=
  ⟨by decide, by decide, by decide⟩

/-- C2 (counterexample): the claim says the default classifier buckets by
path shape, classifying `"./a"` as `"relative"`.  In the code
`defaultGetGroup` puts every statement in the single group `"default"`:
grouping `import "./a"`'s statement with no user `getGroup` yields the group
name `"default"`, not `"relative"`. -/
theorem C2_counterexample :
    (groupImports [exRelativeImport] {}).map (·.name) = ["default"] ∧
    ("default" : String) ≠ "relative" :=
  ⟨by decide, by decide⟩

/-- C2 (amended): with no user `getGroup`, `groupImports` places every
statement in one group named `"default"` (whose `isSideEffect` is the
conjunction over its members); the path-shape classification
(`./`/`../` ⇒ relative, `@/`/`~/`/`#/`/`/` ⇒ alias, else module) lives in
`getImportType` and drives the default statement comparator
`defaultSortImportStatement`, which ranks lower-priority shapes first. -/
theorem C2_default_group_amended :
    (∀ (l : List ImportStatement) (cfg : PluginConfig), cfg.getGroup = none → l ≠ [] →
      groupImports l cfg = [Group.mk "default" (l.all (fun s => s.isSideEffect)) l]) ∧
    ∀ a b : ImportStatement,
      getImportTypePriority (getImportType a.path) <
        getImportTypePriority (getImportType b.path) →
      defaultSortImportStatement a b < 0 :=
  ⟨groupImports_default, defaultSortImportStatement_priority⟩

/-- Witness for C2: concrete instantiation of both conjuncts. -/
theorem C2_default_group_amended_witness :
    groupImports [exRelativeImport] {} =
      [{ name := "default", isSideEffect := [exRelativeImport].all (·.isSideEffect),
         importStatements := [exRelativeImport] }] ∧
    defaultSortImportStatement { path := "react" } { path := "./a" } < 0 :=
  ⟨C2_default_group_amended.1 [exRelativeImport] {} rfl (by decide),
   C2_default_group_amended.2 { path := "react" } { path := "./a" } (by decide)⟩

/-- C3: the claim (and the spec) require that when the usage-analysis
traversal throws, the unused-removal step is skipped for the file.  The code
instead catches the exception inside `analyzeUsedIdentifiers` and returns the
partially-filled set — empty when the traversal threw at once — and the
filter then runs with that empty used-set: the binding import
`import { a } from "x"` is deleted outright instead of passing through. -/
theorem C3_traversal_failure_not_skipped :
    removeUnusedImportsFromStatements [exBindingImport] (TraversalOutcome.thrown []) = [] ∧
    [exBindingImport] ≠ ([] : List ImportStatement) :=
  ⟨by decide, by decide⟩

/-- C4 (counterexample): the claim says side-effect statements are never
combined with anything, even same-path duplicates.  The merge map keys
side-effect statements by `(path, isExport, start)`; two distinct side-effect
statements sharing all three (here: same path and offset, different trailing
comment) collide, and `Map.set` keeps only the later one. -/
theorem C4_counterexample :
    mergeImports [exSideA, exSideB] = [exSideB] ∧ exSideA ≠ exSideB :=
  ⟨by decide, by decide⟩

/-- C4 (amended): for every merge class `(path, isExport)` with at least one
mergeable member, the output contains exactly one statement for the class and
its specifier-key sequence is the first-occurrence deduplication (by
`(name, alias)`) of the class members' concatenated specifiers — provided the
statements' own specifier lists are duplicate-free, as the parser produces.
Side-effect and namespace-carrying statements pass through unchanged provided
their `(path, isExport, kind, start)` keys are pairwise distinct, as holds
for parser output, whose `start` offsets are strictly increasing. -/
theorem C4_merge_invariant_amended (l : List ImportStatement) (p : String) (e : Bool)
    (hdup : ∀ s ∈ l, (s.importContents.map contentKey).Nodup)
    (hkeys : ((l.filter (fun s => !isMergeable s)).map statementKey).Nodup)
    (hne : l.filter (mergeableWith p e) ≠ []) :
    ((mergeImports l).filter (mergeableWith p e)).length = 1 ∧
    ((mergeImports l).filter (mergeableWith p e)).flatMap
        (fun merged => merged.importContents.map contentKey) =
      firstDedup (((l.filter (mergeableWith p e)).flatMap (·.importContents)).map
        contentKey) ∧
    (mergeImports l).filter (fun s => !isMergeable s) =
      l.filter (fun s => !isMergeable s) := by
  have hclass := mergeImports_mergeable_class l p e
  cases hfil : l.filter (mergeableWith p e) with
  | nil => exact absurd hfil hne
  | cons i rest =>
    rw [hfil] at hclass
    simp only [combineAllOpt, Option.toList_some] at hclass
    refine ⟨by rw [hclass]; rfl, ?_, mergeImports_unmergeable_eq l hkeys⟩
    rw [hclass]
    have hi : i ∈ l := (List.mem_filter.mp (hfil ▸ List.mem_cons_self i rest)).1
    simp only [List.flatMap_cons, List.flatMap_nil, List.append_nil]
    rw [combineFold_content_keys (hdup i hi), List.flatMap_cons]

/-- Witness for C4: merging `import { a } from "x"` and
`import { b } from "x"` (distinct offsets). -/
theorem C4_merge_invariant_amended_witness :
    ((mergeImports [exMergeA, exMergeB]).filter (mergeableWith "x" false)).length = 1 ∧
    ((mergeImports [exMergeA, exMergeB]).filter (mergeableWith "x" false)).flatMap
        (fun merged => merged.importContents.map contentKey) =
      firstDedup ((([exMergeA, exMergeB].filter (mergeableWith "x" false)).flatMap
        (·.importContents)).map contentKey) ∧
    (mergeImports [exMergeA, exMergeB]).filter (fun s => !isMergeable s) =
      [exMergeA, exMergeB].filter (fun s => !isMergeable s) :=
  C4_merge_invariant_amended [exMergeA, exMergeB] "x" false
    (by decide) (by decide) (by decide)

/-- C5 (counterexample): the claim says that with `sortSideEffect=false` the
transform preserves the relative order of side-effect statements for every
input.  That holds in the sorter, but when a custom `getGroup` is configured
the orchestrator re-groups the already-sorted statements and emits whole
groups in sorted order, which can swap side-effect statements: grouping by
path, the input block `import "b"` / `import "a"` comes back as
`import "a"` / `import "b"`. -/
theorem C5_counterexample :
    (miniParse "import \"b\"\nimport \"a\"").map (·.path) = ["b", "a"] ∧
    (miniParse (preprocessImports miniParse noTraverse cfgByPath
      "import \"b\"\nimport \"a\"")).map (·.path) = ["a", "b"] ∧
    (mergeConfig cfgByPath).sortSideEffect = false :=
  ⟨by decide, by decide, by decide⟩

/-- C5 (amended): with `sortSideEffect=false` the sorting stage
(`sortImports`) preserves the side-effect statements and their relative order
exactly — the side-effect filter of its output equals that of its input, for
every configuration and every input list.  At the whole-transform level this
extends only to configurations without a custom `getGroup`, since the
post-merge regrouping orders statements by group. -/
theorem C5_side_effect_order_amended :
    ∀ (cfg : PluginConfig) (imports : List ImportStatement),
      (mergeConfig cfg).sortSideEffect = false →
      (sortImports imports cfg).filter (·.isSideEffect) =
        imports.filter (·.isSideEffect) :=
  fun cfg imports h => sortImports_filter_sideEffect imports cfg h

/-- Witness for C5: the default configuration on a one-statement list. -/
theorem C5_side_effect_order_amended_witness :
    (sortImports [exSideA] {}).filter (·.isSideEffect) =
      [exSideA].filter (·.isSideEffect) :=
  C5_side_effect_order_amended {} [exSideA] (by decide)

/-- C6: `filterUnusedImports` returns side-effect and export statements
unchanged regardless of the used-identifier set, and
`removeUnusedImportsFromStatements` never drops such a statement: the
side-effect-or-export sublist of its output equals that of its input, for
every traversal outcome. -/
theorem C6_unused_removal_safety :
    (∀ (s : ImportStatement) (used : List String),
      (s.isSideEffect || s.isExport) = true → filterUnusedImports s used = s) ∧
    ∀ (l : List ImportStatement) (outcome : TraversalOutcome),
      (removeUnusedImportsFromStatements l outcome).filter
          (fun s => s.isSideEffect || s.isExport) =
        l.filter (fun s => s.isSideEffect || s.isExport) :=
  ⟨filterUnusedImports_passthrough,
   fun l outcome => removeUnusedLoop_filter (analyzeUsedIdentifiers outcome) l⟩

/-- Witness for C6: a bare side-effect import survives an empty used-set. -/
theorem C6_unused_removal_safety_witness :
    filterUnusedImports exSideA [] = exSideA ∧
    (removeUnusedImportsFromStatements [exSideA] (TraversalOutcome.ok [])).filter
        (fun s => s.isSideEffect || s.isExport) =
      [exSideA].filter (fun s => s.isSideEffect || s.isExport) :=
  ⟨C6_unused_removal_safety.1 exSideA [] (by decide),
   C6_unused_removal_safety.2 [exSideA] (TraversalOutcome.ok [])⟩

/-- C7 (counterexample): the claim says a per-item `type ` prefix appears
only when the named set is mixed *and* a default/namespace specifier is
present.  The code keeps per-item prefixes whenever the clause is not
promoted: formatting `import { type A, b } from "x"` — mixed named set, no
default or namespace specifier — still renders the per-item prefix
(`type A`). -/
theorem C7_counterexample :
    formatImportStatement exMixedStatement = "import { type A, b } from \"x\"" ∧
    "type ".data <:+: (formatImportStatement exMixedStatement).data ∧
    hasDefaultOrNamespace exMixedStatement.importContents = false :=
  ⟨by decide, by decide, by decide⟩

/-- C7 (amended): every non-side-effect statement renders exactly as the
corrected rule spelt out by `formatStatementAmended` states.  In the
single-line layout (no named specifier carries comments) the clause is
promoted to a whole-clause `type ` with every per-item prefix stripped
precisely when all named specifiers are type-only and no default/namespace
specifier is present, and otherwise every type-marked named specifier
carries its own `type ` prefix; in the multi-line layout (some named
specifier carries comments) the clause keyword is promoted under the same
condition, but the per-item `type ` prefixes are kept. -/
theorem C7_type_prefix_amended :
    ∀ s : ImportStatement, s.isSideEffect = false →
      formatImportStatement s = formatStatementAmended s :=
  formatImportStatement_amended_core

/-- Witness for C7: the spec's promotion scenario (single-line layout,
per-item prefixes stripped) and a commented all-type set (multi-line layout,
keyword promoted while the per-item prefixes stay). -/
theorem C7_type_prefix_amended_witness :
    (formatImportStatement exPromoStatement = formatStatementAmended exPromoStatement ∧
     formatImportStatement exPromoStatement =
       "import type { FC, PropsWithChildren, ReactNode } from \"react\"") ∧
    (formatImportStatement exMLPromoStatement = formatStatementAmended exMLPromoStatement ∧
     formatImportStatement exMLPromoStatement =
       "import type \x7b\n    type A // c,\n    type B,\n\x7d from \"x\"") :=
  ⟨⟨C7_type_prefix_amended exPromoStatement (by decide), by decide⟩,
   ⟨C7_type_prefix_amended exMLPromoStatement (by decide), by decide⟩⟩

/-- C8: `parseImportNode` marks a statement as side-effect exactly for the
two "binds nothing" node shapes: a bare import declaration (no specifiers)
and an `export * from` declaration; in both cases the returned
`importContents` list is empty. -/
theorem C8_parser_side_effect_marking :
    ∀ (node : BabelNode) (comments : List BabelComment) (usedComments : List Nat)
      (code : String) (isFirstImport : Bool),
      ((parseImportNode node comments usedComments code isFirstImport).1.isSideEffect =
        isBareImportOrExportAll node) ∧
      (isBareImportOrExportAll node = true →
        (parseImportNode node comments usedComments code isFirstImport).1.importContents
          = []) :=
  parseImportNode_side_effect_core

/-- Witness for C8: an `export * from "x"` node. -/
theorem C8_parser_side_effect_marking_witness :
    ((parseImportNode (BabelNode.exportAllDeclaration "x" none none none none none)
        [] [] "" true).1.isSideEffect =
      isBareImportOrExportAll
        (BabelNode.exportAllDeclaration "x" none none none none none)) ∧
    (parseImportNode (BabelNode.exportAllDeclaration "x" none none none none none)
        [] [] "" true).1.importContents = [] :=
  ⟨(C8_parser_side_effect_marking
      (BabelNode.exportAllDeclaration "x" none none none none none) [] [] "" true).1,
   (C8_parser_side_effect_marking
      (BabelNode.exportAllDeclaration "x" none none none none none) [] [] "" true).2
      (by decide)⟩

/-- C9: when at least one import is parsed, the transform's output decomposes
as the untouched prefix of the input before the first statement's start
offset, the re-serialized block, a newline separator (`"\n"`, or `"\n\n"`
when text follows immediately without a newline), and the untouched suffix of
the input from the last statement's end offset onward. -/
theorem C9_splice_frame :
    ∀ (parseFn : String → List ImportStatement)
      (traverseFn : String → TraversalOutcome) (config : PluginConfig)
      (text : String), parseFn text ≠ [] →
      preprocessImports parseFn traverseFn config text =
        jsSliceRange text 0 (blockStart (parseFn text)) ++
        formattedBlock parseFn traverseFn config text ++
        spliceSeparator text (parseFn text) ++
        jsSliceFrom text (blockEnd text (parseFn text)) :=
  preprocessImports_splice

/-- Witness for C9: a file with one import and trailing code. -/
theorem C9_splice_frame_witness :
    preprocessImports miniParse noTraverse {} "import \"x\"\nconst a = 1" =
      jsSliceRange "import \"x\"\nconst a = 1" 0
        (blockStart (miniParse "import \"x\"\nconst a = 1")) ++
      formattedBlock miniParse noTraverse {} "import \"x\"\nconst a = 1" ++
      spliceSeparator "import \"x\"\nconst a = 1"
        (miniParse "import \"x\"\nconst a = 1") ++
      jsSliceFrom "import \"x\"\nconst a = 1"
        (blockEnd "import \"x\"\nconst a = 1" (miniParse "import \"x\"\nconst a = 1")) :=
  C9_splice_frame miniParse noTraverse {} "import \"x\"\nconst a = 1" (by decide)

/-- C10: `mergeImports` never reorders: the merge-map key sequence of its
output is the first-occurrence deduplication of the key sequence of its
input, so each output statement sits at the position where its merge key (for
unmergeable statements: their individual `(path, isExport, kind, start)` key)
first occurred, and merging after sorting preserves the sorted order. -/
theorem C10_merge_preserves_order :
    ∀ l : List ImportStatement,
      (mergeImports l).map statementKey = firstDedup (l.map statementKey) :=
  mergeImports_keys_eq
